import Mathlib

/-!
Verification of the diagram-editor model of telegram-bot-builder.

Shallow embedding of src/DiagramModel.js (the graph document: nodes, elements,
connections, selection, bounded undo/redo history) and of the zoom routine of
src/DiagramController.js, with the constants of src/main.js. JS objects become
structures, JS arrays become lists, the JS Set of selected node ids becomes an
insertion-ordered duplicate-free list, string ids of the form prefix_n become
structured pairs of the prefix and the numeric counter value, and JS numbers
become rationals.
-/

namespace BotBuilder

/-- Identifier of a node, element or connection. The source builds ids as the
string prefix_n in generateId; the embedding keeps the prefix and the numeric
suffix separately. -/
structure Id where
  pre : String
  num : Nat
deriving DecidableEq

/-- Position object with x and y, world-space coordinates. -/
structure Pos where
  x : ℚ
  y : ℚ
deriving DecidableEq

/-- Payload object element.data. A JS object whose possible keys across the
element types are text, url, caption, question and options; an absent key is
none. -/
structure ElementData where
  text : Option String := none
  url : Option String := none
  caption : Option String := none
  question : Option String := none
  options : Option (List String) := none
deriving DecidableEq

/-- Content element owned by a node. -/
structure Element where
  id : Id
  type : String
  data : ElementData
deriving DecidableEq

/-- Graph node. -/
structure Node where
  id : Id
  type : String
  position : Pos
  title : String
  elements : List Element
deriving DecidableEq

/-- Directed connection between two nodes. -/
structure Connection where
  id : Id
  source : Id
  target : Id
deriving DecidableEq

/-- Transient pending connection started from a source node. -/
structure PendingConnection where
  sourceId : Id
  sourcePosition : Pos
  targetPosition : Option Pos := none
deriving DecidableEq

/-- Events published by the model (the payloads are reduced to the ids that
identify the affected entities; subscribers are out of scope). -/
inductive Event where
  | nodeAdded (nodeId : Id)
  | nodeRemoved (nodeId : Id)
  | nodeUpdated (nodeId : Id)
  | elementAdded (nodeId elementId : Id)
  | elementRemoved (nodeId elementId : Id)
  | elementUpdated (nodeId elementId : Id)
  | connectionAdded (connectionId : Id)
  | connectionRemoved (connectionId : Id)
  | selectionChanged
  | stateChanged
deriving DecidableEq

/-- History snapshot recorded by recordHistory: a deep copy of the nodes, the
connections and the selection state. The same structure serves as the
observable document part of the model when claims speak of deep equality. -/
structure Snapshot where
  nodes : List Node
  connections : List Connection
  selectedNodeIds : List (Option Id)
  selectedNodeId : Option Id
  selectedElementId : Option Id
  selectedConnectionId : Option Id
deriving DecidableEq

/-- State of DiagramModel. The fields events, generated and recordCount are
ghost instrumentation: events logs every published event, generated logs every
id handed out by generateId, recordCount counts executed history recordings.
They exist only to state the claims and influence nothing. -/
structure Model where
  nodes : List Node
  connections : List Connection
  nextId : Nat
  selectedNodeIds : List (Option Id)
  selectedNodeId : Option Id
  selectedElementId : Option Id
  selectedConnectionId : Option Id
  pendingConnection : Option PendingConnection
  history : List Snapshot
  historyIndex : Int
  isRecordingHistory : Bool
  events : List Event
  generated : List Id
  recordCount : Nat
deriving DecidableEq

/-- CONSTANTS.NODE.TYPES of main.js. -/
def NODE_TYPES : List String :=
  ["start", "message", "input", "logic", "api", "payment", "database"]

/-- CONSTANTS.NODE.TYPE_NAMES of main.js, as a partial lookup. -/
def TYPE_NAMES : String → Option String
  | "start" => some "Начало"
  | "message" => some "Сообщение"
  | "input" => some "Ввод данных"
  | "logic" => some "Условие"
  | "api" => some "API запрос"
  | "payment" => some "Платеж"
  | "database" => some "База данных"
  | _ => none

/-- Default greeting used for the seeded text element of a start node. -/
def START_GREETING : String := "Привет! Я бот-помощник. Как я могу вам помочь?"

/-- Default text of a new text element. -/
def DEFAULT_TEXT : String := "Новый текстовый элемент"

/-- JS Set.add on an insertion-ordered duplicate-free list. -/
def setAdd [DecidableEq α] (l : List α) (a : α) : List α :=
  if a ∈ l then l else l ++ [a]

/-- Models Array.prototype.findIndex followed by splice(i, 1): removes the
first element satisfying p; none models the findIndex result -1, on which the
callers return early. -/
def removeFirst? (p : α → Bool) : List α → Option (List α)
  | [] => none
  | a :: l => if p a then some l else (removeFirst? p l).map (a :: ·)

/-- Models mutating, in place, the first element satisfying p (the object
returned by Array.prototype.find). -/
def updateFirst (p : α → Bool) (f : α → α) : List α → List α
  | [] => []
  | a :: l => if p a then f a :: l else a :: updateFirst p f l

/-- The model state created by the DiagramModel constructor. -/
def initialModel : Model where
  nodes := []
  connections := []
  nextId := 1
  selectedNodeIds := []
  selectedNodeId := none
  selectedElementId := none
  selectedConnectionId := none
  pendingConnection := none
  history := []
  historyIndex := -1
  isRecordingHistory := true
  events := []
  generated := []
  recordCount := 0

/-- publish: appends the event to the ghost log (synchronous fan-out to
subscribers is out of scope). -/
def publish (e : Event) (s : Model) : Model :=
  { s with events := s.events ++ [e] }

/-- generateId: returns prefix_nextId and increments the counter; the ghost
log generated records the id. -/
def generateId (pre : String) (s : Model) : Id × Model :=
  let i : Id := { pre := pre, num := s.nextId }
  (i, { s with nextId := s.nextId + 1, generated := s.generated ++ [i] })

/-- The observable document: exactly the data recordHistory snapshots. -/
def docOf (s : Model) : Snapshot where
  nodes := s.nodes
  connections := s.connections
  selectedNodeIds := s.selectedNodeIds
  selectedNodeId := s.selectedNodeId
  selectedElementId := s.selectedElementId
  selectedConnectionId := s.selectedConnectionId

/-- The history and cursor recordHistory computes: drop the redo states after
the cursor, push a snapshot of the current state, and bound the log to 50
entries, shifting out the oldest entry and decrementing the index when
exceeded. -/
def recordHistoryCore (s : Model) : List Snapshot × ℤ :=
  let hist :=
    if s.historyIndex < (s.history.length : ℤ) - 1 then
      s.history.take (s.historyIndex + 1).toNat
    else s.history
  let hist2 := hist ++ [docOf s]
  if 50 < hist2.length then (hist2.tail, (hist2.length : ℤ) - 2)
  else (hist2, (hist2.length : ℤ) - 1)

/-- recordHistory: returns unchanged while recording is suspended, else
installs the pushed, truncated and bounded history with its cursor. -/
def recordHistory (s : Model) : Model :=
  if s.isRecordingHistory = false then s
  else
    { s with history := (recordHistoryCore s).1, historyIndex := (recordHistoryCore s).2,
             recordCount := s.recordCount + 1 }

/-- restoreState: suspends recording, restores the document fields from the
snapshot, publishes onStateChanged and resumes recording. -/
def restoreState (st : Snapshot) (s : Model) : Model :=
  let s1 := { s with isRecordingHistory := false }
  let s2 := { s1 with
    nodes := st.nodes
    connections := st.connections
    selectedNodeIds := st.selectedNodeIds
    selectedNodeId := st.selectedNodeId
    selectedElementId := st.selectedElementId
    selectedConnectionId := st.selectedConnectionId }
  let s3 := publish .stateChanged s2
  { s3 with isRecordingHistory := true }

/-- undo: fails at index 0 or below, else decrements the cursor and restores.
The none branch of the lookup is unreachable from states whose cursor lies
inside the log (there the JS code would throw on the undefined entry). -/
def undo (s : Model) : Bool × Model :=
  if s.historyIndex ≤ 0 then (false, s)
  else
    let i := s.historyIndex - 1
    match s.history.get? i.toNat with
    | some st => (true, restoreState st { s with historyIndex := i })
    | none => (true, { s with historyIndex := i })

/-- redo: fails at the last index or beyond, else increments the cursor and
restores; the none branch is unreachable as in undo. -/
def redo (s : Model) : Bool × Model :=
  if (s.history.length : ℤ) - 1 ≤ s.historyIndex then (false, s)
  else
    let i := s.historyIndex + 1
    match s.history.get? i.toNat with
    | some st => (true, restoreState st { s with historyIndex := i })
    | none => (true, { s with historyIndex := i })

/-- getNodeById. -/
def getNodeById (nodeId : Id) (s : Model) : Option Node :=
  s.nodes.find? (fun n => decide (n.id = nodeId))

/-- getConnectionById. -/
def getConnectionById (connectionId : Id) (s : Model) : Option Connection :=
  s.connections.find? (fun c => decide (c.id = connectionId))

/-- setSelectedNode: clears the selected-node set, adds the given id (also
when it is null), updates the primary id and publishes. It touches neither
selectedElementId nor selectedConnectionId and records no history. -/
def setSelectedNode (nodeId : Option Id) (s : Model) : Model :=
  let s1 := { s with selectedNodeIds := ([] : List (Option Id)) }
  let s2 := { s1 with selectedNodeIds := setAdd s1.selectedNodeIds nodeId }
  let s3 := { s2 with selectedNodeId := nodeId }
  publish .selectionChanged s3

/-- setSelectedElement: sets the primary node id and the element id, clears
the connection selection and publishes; no history recording. -/
def setSelectedElement (nodeId elementId : Option Id) (s : Model) : Model :=
  let s1 := { s with
    selectedNodeId := nodeId
    selectedElementId := elementId
    selectedConnectionId := none }
  publish .selectionChanged s1

/-- setSelectedConnection: nulls the primary node id and the element id, sets
the connection id and publishes. The selectedNodeIds set is left untouched;
no history recording. -/
def setSelectedConnection (connectionId : Option Id) (s : Model) : Model :=
  let s1 := { s with
    selectedNodeId := none
    selectedElementId := none
    selectedConnectionId := connectionId }
  publish .selectionChanged s1

/-- addNode: generates the node id, builds the node with the type-name title
or the fallback, seeds one default text element with its own fresh id, pushes
the node, records history and publishes onNodeAdded. No validation of type. -/
def addNode (type : String) (position : Pos) (s : Model) : Id × Model :=
  let r1 := generateId "node" s
  let nodeId := r1.1
  let r2 := generateId "element" r1.2
  let elementId := r2.1
  let defaultText := if type = "start" then START_GREETING else DEFAULT_TEXT
  let node : Node :=
    { id := nodeId, type := type, position := position,
      title := (TYPE_NAMES type).getD "Узел",
      elements := [{ id := elementId, type := "text",
                     data := { text := some defaultText } }] }
  let s1 := { r2.2 with nodes := r2.2.nodes ++ [node] }
  (nodeId, publish (.nodeAdded nodeId) (recordHistory s1))

/-- Partial update payload of updateNode (Object.assign onto the node); the
source call sites update the position and the title. -/
structure UpdateNodeData where
  position : Option Pos := none
  title : Option String := none
deriving DecidableEq

/-- Object.assign(node, data) for the modelled payload. -/
def assignNode (d : UpdateNodeData) (n : Node) : Node :=
  { n with position := d.position.getD n.position, title := d.title.getD n.title }

/-- updateNode: silent no-op when the node is missing, else merges the data,
records history and publishes onNodeUpdated. -/
def updateNode (nodeId : Id) (d : UpdateNodeData) (s : Model) : Model :=
  match getNodeById nodeId s with
  | none => s
  | some _ =>
    let s1 := { s with
      nodes := updateFirst (fun n => decide (n.id = nodeId)) (assignNode d) s.nodes }
    publish (.nodeUpdated nodeId) (recordHistory s1)

/-- removeConnection: silent no-op when missing, else splices it out, resets
the connection selection when it was selected, records and publishes. -/
def removeConnection (connectionId : Id) (s : Model) : Model :=
  match removeFirst? (fun c => decide (c.id = connectionId)) s.connections with
  | none => s
  | some conns =>
    let s1 := { s with connections := conns }
    let s2 :=
      if s1.selectedConnectionId = some connectionId then
        setSelectedConnection none s1
      else s1
    publish (.connectionRemoved connectionId) (recordHistory s2)

/-- removeNode: silent no-op when missing, else splices the node out, removes
every connection whose source or target is the node through removeConnection,
resets the node selection when it was selected, records and publishes. -/
def removeNode (nodeId : Id) (s : Model) : Model :=
  match removeFirst? (fun n => decide (n.id = nodeId)) s.nodes with
  | none => s
  | some nodes2 =>
    let s1 := { s with nodes := nodes2 }
    let related := s1.connections.filter
      (fun c => decide (c.source = nodeId) || decide (c.target = nodeId))
    let s2 := related.foldl (fun m c => removeConnection c.id m) s1
    let s3 := if s2.selectedNodeId = some nodeId then setSelectedNode none s2 else s2
    publish (.nodeRemoved nodeId) (recordHistory s3)

/-- addConnection: null and no state change when an endpoint is missing; the
existing id and no state change when the ordered pair is already connected;
else a fresh connection, one history record and onConnectionAdded. -/
def addConnection (sourceId targetId : Id) (s : Model) : Option Id × Model :=
  if (getNodeById sourceId s).isNone ∨ (getNodeById targetId s).isNone then
    (none, s)
  else
    match s.connections.find?
        (fun c => decide (c.source = sourceId) && decide (c.target = targetId)) with
    | some c => (some c.id, s)
    | none =>
      let r := generateId "conn" s
      let connectionId := r.1
      let c : Connection := { id := connectionId, source := sourceId, target := targetId }
      let s1 := { r.2 with connections := r.2.connections ++ [c] }
      (some connectionId, publish (.connectionAdded connectionId) (recordHistory s1))

/-- Default element.data per element type (the switch in addElement). -/
def initialElementData (type : String) : ElementData :=
  match type with
  | "text" => { text := some DEFAULT_TEXT }
  | "image" => { url := some "", caption := some "" }
  | "audio" => { url := some "", caption := some "" }
  | "video" => { url := some "", caption := some "" }
  | "choice" => { question := some "Выберите вариант:",
                  options := some ["Вариант 1", "Вариант 2"] }
  | _ => {}

/-- addElement: null when the node is missing, else pushes a fresh element
with type defaults onto the node, records and publishes. -/
def addElement (nodeId : Id) (type : String) (s : Model) : Option Id × Model :=
  match getNodeById nodeId s with
  | none => (none, s)
  | some _ =>
    let r := generateId "element" s
    let elementId := r.1
    let el : Element := { id := elementId, type := type, data := initialElementData type }
    let s1 := { r.2 with
      nodes := updateFirst (fun n => decide (n.id = nodeId))
        (fun n => { n with elements := n.elements ++ [el] }) r.2.nodes }
    (some elementId, publish (.elementAdded nodeId elementId) (recordHistory s1))

/-- Spread merge of element.data with an update payload: the payload keys win. -/
def mergeData (old d : ElementData) : ElementData where
  text := d.text.elim old.text some
  url := d.url.elim old.url some
  caption := d.caption.elim old.caption some
  question := d.question.elim old.question some
  options := d.options.elim old.options some

/-- updateElement: silent no-op when the node or the element is missing, else
spread-merges the data into the element, records and publishes. -/
def updateElement (nodeId elementId : Id) (d : ElementData) (s : Model) : Model :=
  match getNodeById nodeId s with
  | none => s
  | some node =>
    match node.elements.find? (fun el => decide (el.id = elementId)) with
    | none => s
    | some _ =>
      let s1 := { s with
        nodes := updateFirst (fun n => decide (n.id = nodeId))
          (fun n => { n with
            elements := updateFirst (fun el => decide (el.id = elementId))
              (fun el => { el with data := mergeData el.data d }) n.elements }) s.nodes }
      publish (.elementUpdated nodeId elementId) (recordHistory s1)

/-- removeElement: silent no-op when the node or the element is missing, else
splices the element out, resets the element selection when it was the selected
one, records and publishes. -/
def removeElement (nodeId elementId : Id) (s : Model) : Model :=
  match getNodeById nodeId s with
  | none => s
  | some node =>
    match removeFirst? (fun el => decide (el.id = elementId)) node.elements with
    | none => s
    | some els =>
      let s1 := { s with
        nodes := updateFirst (fun n => decide (n.id = nodeId))
          (fun n => { n with elements := els }) s.nodes }
      let s2 :=
        if s1.selectedNodeId = some nodeId ∧ s1.selectedElementId = some elementId then
          setSelectedElement (some nodeId) none s1
        else s1
      publish (.elementRemoved nodeId elementId) (recordHistory s2)

/-- toggleNodeSelection: optionally clears the set first, toggles membership
of the id, keeps the primary id in step, clears element and connection
selection, publishes and records history. -/
def toggleNodeSelection (nodeId : Option Id) (exclusive : Bool) (s : Model) : Model :=
  let s1 := if exclusive then { s with selectedNodeIds := [] } else s
  let s2 :=
    if nodeId ∈ s1.selectedNodeIds then
      let sa := { s1 with selectedNodeIds := s1.selectedNodeIds.erase nodeId }
      if sa.selectedNodeId = nodeId then { sa with selectedNodeId := none } else sa
    else
      { s1 with selectedNodeIds := setAdd s1.selectedNodeIds nodeId,
                selectedNodeId := nodeId }
  let s3 := { s2 with selectedElementId := none, selectedConnectionId := none }
  recordHistory (publish .selectionChanged s3)

/-- The serializable document handled by exportData and importData. -/
structure ImportData where
  nodes : List Node
  connections : List Connection
deriving DecidableEq

/-- exportData: a deep copy of the nodes and the connections. -/
def exportData (s : Model) : ImportData where
  nodes := s.nodes
  connections := s.connections

/-- The maxId loop of importData: the running maximum of the numeric id
suffixes of one node and its elements. -/
def nodeMax (m : Nat) (n : Node) : Nat :=
  n.elements.foldl (fun m2 e => max m2 e.id.num) (max m n.id.num)

/-- The maximum numeric id suffix over the nodes, their elements and the
connections of the imported data, starting from 0 as in the source. -/
def maxIdOf (data : ImportData) : Nat :=
  data.connections.foldl (fun m c => max m c.id.num)
    (data.nodes.foldl nodeMax 0)

/-- importData: clears the document and the selection, installs the imported
nodes and connections, recomputes the id counter as the maximal numeric
suffix plus one, reseeds the history with exactly one snapshot and publishes.
The ghost log generated is restarted so that it records exactly the ids
handed out after the import. -/
def importData (data : ImportData) (s : Model) : Model :=
  let s1 := { s with
    nodes := ([] : List Node)
    connections := ([] : List Connection)
    selectedNodeIds := ([] : List (Option Id))
    selectedNodeId := none
    selectedElementId := none
    selectedConnectionId := none }
  let s2 := { s1 with nodes := data.nodes, connections := data.connections }
  let s3 := { s2 with nextId := maxIdOf data + 1 }
  let s4 := { s3 with history := ([] : List Snapshot), historyIndex := (-1 : ℤ),
                      generated := ([] : List Id) }
  publish .stateChanged (recordHistory s4)

/-- CONSTANTS.CANVAS.SCALE_MIN. -/
def SCALE_MIN : ℚ := 1/4

/-- CONSTANTS.CANVAS.SCALE_MAX. -/
def SCALE_MAX : ℚ := 2

/-- CONSTANTS.CANVAS.SCALE_STEP. -/
def SCALE_STEP : ℚ := 1/10

/-- Camera state of DiagramController: canvasState.position and
canvasState.scale. -/
structure Camera where
  position : Pos
  scale : ℚ
deriving DecidableEq

/-- The default camera: position {0, 0}, scale 1 (CONSTANTS.CANVAS). -/
def defaultCamera : Camera := { position := ⟨0, 0⟩, scale := 1 }

/-- zoom(delta, clientX, clientY) of DiagramController. mouseX and mouseY
stand for clientX - rect.left and clientY - rect.top, the anchor point
relative to the canvas. Clamps the new scale, returns unchanged when the
clamped scale equals the current one, else rescales and moves the position so
the world point under the anchor stays put. Arithmetic is over ℚ. -/
def zoom (cam : Camera) (delta mouseX mouseY : ℚ) : Camera :=
  let newScale := max SCALE_MIN (min SCALE_MAX (cam.scale + delta))
  if newScale = cam.scale then cam
  else
    let mouseCanvasX := mouseX / cam.scale + cam.position.x
    let mouseCanvasY := mouseY / cam.scale + cam.position.y
    { position := ⟨mouseCanvasX - mouseX / newScale, mouseCanvasY - mouseY / newScale⟩,
      scale := newScale }

/-- n calls of zoom(SCALE_STEP, x, y) starting from the default camera. -/
def zoomN (x y : ℚ) : Nat → Camera
  | 0 => defaultCamera
  | n + 1 => zoom (zoomN x y n) SCALE_STEP x y

/-- The mutation operations of the model exercised by the claims: the
single-entity document mutations, toggle and the plain selection setters.
The batch and pending-connection helpers of the source are compositions of
these. -/
inductive Op where
  | addNode (type : String) (position : Pos)
  | updateNode (nodeId : Id) (d : UpdateNodeData)
  | removeNode (nodeId : Id)
  | addElement (nodeId : Id) (type : String)
  | updateElement (nodeId elementId : Id) (d : ElementData)
  | removeElement (nodeId elementId : Id)
  | addConnection (sourceId targetId : Id)
  | removeConnection (connectionId : Id)
  | toggleNodeSelection (nodeId : Option Id) (exclusive : Bool)
  | setSelectedNode (nodeId : Option Id)
  | setSelectedElement (nodeId elementId : Option Id)
  | setSelectedConnection (connectionId : Option Id)
deriving DecidableEq

/-- State transition of one operation (returned values discarded). -/
def applyOp (o : Op) (s : Model) : Model :=
  match o with
  | .addNode t p => (addNode t p s).2
  | .updateNode nid d => updateNode nid d s
  | .removeNode nid => removeNode nid s
  | .addElement nid t => (addElement nid t s).2
  | .updateElement nid eid d => updateElement nid eid d s
  | .removeElement nid eid => removeElement nid eid s
  | .addConnection a b => (addConnection a b s).2
  | .removeConnection cid => removeConnection cid s
  | .toggleNodeSelection nid ex => toggleNodeSelection nid ex s
  | .setSelectedNode nid => setSelectedNode nid s
  | .setSelectedElement nid eid => setSelectedElement nid eid s
  | .setSelectedConnection cid => setSelectedConnection cid s

/-- Sequential application of a list of operations. -/
def applyOps (ops : List Op) (s : Model) : Model :=
  ops.foldl (fun m o => applyOp o m) s

/-- Whether the operation ends in a recordHistory call on its mutation paths;
the plain selection setters never record. -/
def isRecordingOp : Op → Bool
  | .setSelectedNode _ => false
  | .setSelectedElement _ _ => false
  | .setSelectedConnection _ => false
  | _ => true

/-- n successive undo calls, keeping only the state. -/
def undoN : Nat → Model → Model
  | 0, s => s
  | n + 1, s => undoN n (undo s).2

/-- n successive redo calls, keeping only the state. -/
def redoN : Nat → Model → Model
  | 0, s => s
  | n + 1, s => redoN n (redo s).2

/-- The ids of the nodes of the document. -/
def nodeIds (s : Model) : List Id := s.nodes.map Node.id

/-- The ids of the connections of the document. -/
def connIds (s : Model) : List Id := s.connections.map Connection.id

/-- Every id present in the document: node ids, element ids, connection ids. -/
def allIds (s : Model) : List Id :=
  nodeIds s ++ s.nodes.flatMap (fun n => n.elements.map Element.id) ++ connIds s

/-- Referential integrity of the connections: both endpoints name existing
nodes. -/
def connectionsValid (s : Model) : Prop :=
  ∀ c ∈ s.connections, c.source ∈ nodeIds s ∧ c.target ∈ nodeIds s

/-- The invariant of reachable documents: valid connection endpoints, unique
node and connection ids, and every stored id numerically below the counter. -/
def GoodState (s : Model) : Prop :=
  connectionsValid s ∧ (nodeIds s).Nodup ∧ (connIds s).Nodup ∧
    ∀ i ∈ allIds s, i.num < s.nextId

instance (s : Model) : Decidable (connectionsValid s) := by
  unfold connectionsValid; infer_instance

instance (s : Model) : Decidable (GoodState s) := by
  unfold GoodState; infer_instance

/-- The scale component of n zoom steps, independent of the anchor point. -/
def scaleIter : Nat → ℚ
  | 0 => 1
  | n + 1 => max SCALE_MIN (min SCALE_MAX (scaleIter n + SCALE_STEP))

/-- Structural part of the history invariant: recording is on, the cursor
sits on the last entry, and the log length is the record count capped at 50.
Preserved by every operation, including the non-recording selection setters. -/
def PreInv (s : Model) : Prop :=
  s.isRecordingHistory = true ∧
  s.historyIndex = (s.history.length : ℤ) - 1 ∧
  s.history.length = min s.recordCount 50

/-- Full history invariant: additionally the last entry is a snapshot of the
live document. Holds after every history-recording operation. -/
def Inv (s : Model) : Prop :=
  PreInv s ∧ (s.history ≠ [] → s.history.getLast? = some (docOf s))

/-- State of a model while navigating a fixed history log H with undo and
redo: the log is H, the cursor is inside it, and the document equals the
entry under the cursor. -/
def MidInv (H : List Snapshot) (s : Model) : Prop :=
  s.history = H ∧ s.isRecordingHistory = true ∧
  0 ≤ s.historyIndex ∧ s.historyIndex < (H.length : ℤ) ∧
  H.get? s.historyIndex.toNat = some (docOf s)

/-! ## Basic lemmas about publish, recordHistory and the setters -/

theorem publish_docOf (e : Event) (s : Model) : docOf (publish e s) = docOf s := rfl

theorem recordHistory_docOf (s : Model) : docOf (recordHistory s) = docOf s := by
  unfold recordHistory; split <;> rfl

theorem recordHistory_nodes (s : Model) : (recordHistory s).nodes = s.nodes := by
  unfold recordHistory; split <;> rfl

theorem recordHistory_connections (s : Model) :
    (recordHistory s).connections = s.connections := by
  unfold recordHistory; split <;> rfl

theorem recordHistory_nextId (s : Model) : (recordHistory s).nextId = s.nextId := by
  unfold recordHistory; split <;> rfl

theorem recordHistory_events (s : Model) : (recordHistory s).events = s.events := by
  unfold recordHistory; split <;> rfl

theorem recordHistory_generated (s : Model) :
    (recordHistory s).generated = s.generated := by
  unfold recordHistory; split <;> rfl

theorem recordHistory_flag (s : Model) :
    (recordHistory s).isRecordingHistory = s.isRecordingHistory := by
  unfold recordHistory; split <;> rfl

theorem recordHistory_recordCount (s : Model) :
    (recordHistory s).recordCount
      = if s.isRecordingHistory then s.recordCount + 1 else s.recordCount := by
  unfold recordHistory; cases h : s.isRecordingHistory <;> simp [h]

/-! ## History invariant machinery -/

theorem PreInv_of_fields {s t : Model}
    (hf : t.isRecordingHistory = s.isRecordingHistory)
    (hi : t.historyIndex = s.historyIndex)
    (hh : t.history = s.history) (hr : t.recordCount = s.recordCount)
    (h : PreInv s) : PreInv t := by
  unfold PreInv at h ⊢
  rw [hf, hi, hh, hr]
  exact h

theorem Inv_initial : Inv initialModel := by
  refine ⟨⟨rfl, by simp [initialModel], by simp [initialModel]⟩, ?_⟩
  intro h
  exact absurd rfl h

theorem recordHistory_Inv (s : Model) (h : PreInv s) : Inv (recordHistory s) := by
  obtain ⟨h1, h2, h3⟩ := h
  have hcond : ¬ s.isRecordingHistory = false := by rw [h1]; simp
  have hno : ¬ s.historyIndex < (s.history.length : ℤ) - 1 := by omega
  have hcore : recordHistoryCore s
      = (s.history ++ [docOf s], (((s.history ++ [docOf s]).length : ℤ) - 1))
      ∨ recordHistoryCore s
      = ((s.history ++ [docOf s]).tail, (((s.history ++ [docOf s]).length : ℤ) - 2)) := by
    unfold recordHistoryCore
    rw [if_neg hno]
    by_cases hlen : 50 < (s.history ++ [docOf s]).length
    · right; rw [if_pos hlen]
    · left; rw [if_neg hlen]
  have hrec : recordHistory s
      = { s with history := (recordHistoryCore s).1,
                 historyIndex := (recordHistoryCore s).2,
                 recordCount := s.recordCount + 1 } := by
    unfold recordHistory
    rw [if_neg hcond]
  rcases hcore with hc | hc
  · have hsmall : s.history.length + 1 ≤ 50 := by
      by_contra hbig
      unfold recordHistoryCore at hc
      rw [if_neg hno, if_pos (by simp [List.length_append]; omega)] at hc
      have := congrArg (fun p => p.1.length) hc
      simp [List.length_append] at this
    refine ⟨⟨?_, ?_, ?_⟩, ?_⟩
    · simp only [hrec]; exact h1
    · simp only [hrec, hc]
    · simp only [hrec, hc, List.length_append, List.length_cons, List.length_nil]
      omega
    · intro _
      rw [recordHistory_docOf]
      simp only [hrec, hc]
      exact List.getLast?_concat _
  · have hbig : 50 < s.history.length + 1 := by
      by_contra hsm
      unfold recordHistoryCore at hc
      rw [if_neg hno, if_neg (by simp [List.length_append]; omega)] at hc
      have := congrArg (fun p => p.1.length) hc
      simp [List.length_append] at this
    have hne : s.history ≠ [] := by
      intro hnil
      rw [hnil] at hbig
      simp at hbig
    refine ⟨⟨?_, ?_, ?_⟩, ?_⟩
    · simp only [hrec]; exact h1
    · simp only [hrec, hc, List.length_tail, List.length_append,
        List.length_cons, List.length_nil]
      omega
    · simp only [hrec, hc, List.length_tail, List.length_append,
        List.length_cons, List.length_nil]
      omega
    · intro _
      rw [recordHistory_docOf]
      simp only [hrec, hc, List.tail_append_of_ne_nil hne]
      exact List.getLast?_concat _

theorem publish_Inv (e : Event) (s : Model) (h : Inv s) : Inv (publish e s) := h

theorem publish_PreInv (e : Event) (s : Model) (h : PreInv s) : PreInv (publish e s) := h

theorem setSelectedNode_PreInv (nid : Option Id) (s : Model) (h : PreInv s) :
    PreInv (setSelectedNode nid s) :=
  PreInv_of_fields rfl rfl rfl rfl h

theorem setSelectedElement_PreInv (nid eid : Option Id) (s : Model) (h : PreInv s) :
    PreInv (setSelectedElement nid eid s) :=
  PreInv_of_fields rfl rfl rfl rfl h

theorem setSelectedConnection_PreInv (cid : Option Id) (s : Model) (h : PreInv s) :
    PreInv (setSelectedConnection cid s) :=
  PreInv_of_fields rfl rfl rfl rfl h

theorem addNode_Inv (t : String) (p : Pos) (s : Model) (h : PreInv s) :
    Inv (addNode t p s).2 :=
  publish_Inv _ _ (recordHistory_Inv _ (PreInv_of_fields rfl rfl rfl rfl h))

theorem updateNode_Inv (nid : Id) (d : UpdateNodeData) (s : Model) (h : Inv s) :
    Inv (updateNode nid d s) := by
  unfold updateNode
  cases hg : getNodeById nid s with
  | none => exact h
  | some n =>
    exact publish_Inv _ _ (recordHistory_Inv _ (PreInv_of_fields rfl rfl rfl rfl h.1))

theorem addElement_Inv (nid : Id) (t : String) (s : Model) (h : Inv s) :
    Inv (addElement nid t s).2 := by
  unfold addElement
  cases hg : getNodeById nid s with
  | none => exact h
  | some n =>
    exact publish_Inv _ _ (recordHistory_Inv _ (PreInv_of_fields rfl rfl rfl rfl h.1))

theorem updateElement_Inv (nid eid : Id) (d : ElementData) (s : Model) (h : Inv s) :
    Inv (updateElement nid eid d s) := by
  unfold updateElement
  cases hg : getNodeById nid s with
  | none => exact h
  | some n =>
    dsimp only
    cases hf : n.elements.find? (fun el => decide (el.id = eid)) with
    | none => exact h
    | some el =>
      exact publish_Inv _ _ (recordHistory_Inv _ (PreInv_of_fields rfl rfl rfl rfl h.1))

theorem removeElement_Inv (nid eid : Id) (s : Model) (h : Inv s) :
    Inv (removeElement nid eid s) := by
  unfold removeElement
  cases hg : getNodeById nid s with
  | none => exact h
  | some n =>
    dsimp only
    cases hf : removeFirst? (fun el => decide (el.id = eid)) n.elements with
    | none => exact h
    | some els =>
      dsimp only
      split
      · exact publish_Inv _ _ (recordHistory_Inv _
          (PreInv_of_fields rfl rfl rfl rfl (PreInv_of_fields rfl rfl rfl rfl h.1)))
      · exact publish_Inv _ _ (recordHistory_Inv _ (PreInv_of_fields rfl rfl rfl rfl h.1))

theorem addConnection_Inv (a b : Id) (s : Model) (h : Inv s) :
    Inv (addConnection a b s).2 := by
  unfold addConnection
  split
  · exact h
  · dsimp only
    split
    · exact h
    · exact publish_Inv _ _ (recordHistory_Inv _ (PreInv_of_fields rfl rfl rfl rfl h.1))

theorem removeConnection_Inv (cid : Id) (s : Model) (h : Inv s) :
    Inv (removeConnection cid s) := by
  unfold removeConnection
  cases hr : removeFirst? (fun c => decide (c.id = cid)) s.connections with
  | none => exact h
  | some conns =>
    dsimp only
    split
    · exact publish_Inv _ _ (recordHistory_Inv _
        (PreInv_of_fields rfl rfl rfl rfl (PreInv_of_fields rfl rfl rfl rfl h.1)))
    · exact publish_Inv _ _ (recordHistory_Inv _ (PreInv_of_fields rfl rfl rfl rfl h.1))

theorem record_publish_PreInv (e : Event) (u : Model) (h : PreInv u) :
    PreInv (publish e (recordHistory u)) :=
  publish_PreInv _ _ (recordHistory_Inv u h).1

theorem removeConnection_PreInv (cid : Id) (s : Model) (h : PreInv s) :
    PreInv (removeConnection cid s) := by
  unfold removeConnection
  cases hr : removeFirst? (fun c => decide (c.id = cid)) s.connections with
  | none => exact h
  | some conns =>
    dsimp only
    split
    · exact record_publish_PreInv _ _
        (PreInv_of_fields rfl rfl rfl rfl (PreInv_of_fields rfl rfl rfl rfl h))
    · exact record_publish_PreInv _ _ (PreInv_of_fields rfl rfl rfl rfl h)

theorem foldl_removeConnection_PreInv (l : List Connection) :
    ∀ s : Model, PreInv s →
      PreInv (l.foldl (fun m c => removeConnection c.id m) s) := by
  induction l with
  | nil => intro s h; exact h
  | cons c l ih => intro s h; exact ih _ (removeConnection_PreInv c.id s h)

theorem removeNode_Inv (nid : Id) (s : Model) (h : Inv s) :
    Inv (removeNode nid s) := by
  unfold removeNode
  cases hr : removeFirst? (fun n => decide (n.id = nid)) s.nodes with
  | none => exact h
  | some nodes2 =>
    dsimp only
    split
    · exact publish_Inv _ _ (recordHistory_Inv _
        (PreInv_of_fields rfl rfl rfl rfl (foldl_removeConnection_PreInv _ _
          (PreInv_of_fields rfl rfl rfl rfl h.1))))
    · exact publish_Inv _ _ (recordHistory_Inv _ (foldl_removeConnection_PreInv _ _
        (PreInv_of_fields rfl rfl rfl rfl h.1)))

theorem toggleNodeSelection_Inv (nid : Option Id) (ex : Bool) (s : Model)
    (h : PreInv s) : Inv (toggleNodeSelection nid ex s) := by
  unfold toggleNodeSelection
  dsimp only
  repeat' split
  all_goals
    exact recordHistory_Inv _ (PreInv_of_fields rfl rfl rfl rfl h)

theorem updateNode_PreInv (nid : Id) (d : UpdateNodeData) (s : Model)
    (h : PreInv s) : PreInv (updateNode nid d s) := by
  unfold updateNode
  cases hg : getNodeById nid s with
  | none => exact h
  | some n => exact record_publish_PreInv _ _ (PreInv_of_fields rfl rfl rfl rfl h)

theorem removeNode_PreInv (nid : Id) (s : Model) (h : PreInv s) :
    PreInv (removeNode nid s) := by
  unfold removeNode
  cases hr : removeFirst? (fun n => decide (n.id = nid)) s.nodes with
  | none => exact h
  | some nodes2 =>
    dsimp only
    split
    · exact record_publish_PreInv _ _
        (PreInv_of_fields rfl rfl rfl rfl (foldl_removeConnection_PreInv _ _
          (PreInv_of_fields rfl rfl rfl rfl h)))
    · exact record_publish_PreInv _ _ (foldl_removeConnection_PreInv _ _
        (PreInv_of_fields rfl rfl rfl rfl h))

theorem addElement_PreInv (nid : Id) (t : String) (s : Model) (h : PreInv s) :
    PreInv (addElement nid t s).2 := by
  unfold addElement
  cases hg : getNodeById nid s with
  | none => exact h
  | some n => exact record_publish_PreInv _ _ (PreInv_of_fields rfl rfl rfl rfl h)

theorem updateElement_PreInv (nid eid : Id) (d : ElementData) (s : Model)
    (h : PreInv s) : PreInv (updateElement nid eid d s) := by
  unfold updateElement
  cases hg : getNodeById nid s with
  | none => exact h
  | some n =>
    dsimp only
    cases hf : n.elements.find? (fun el => decide (el.id = eid)) with
    | none => exact h
    | some el => exact record_publish_PreInv _ _ (PreInv_of_fields rfl rfl rfl rfl h)

theorem removeElement_PreInv (nid eid : Id) (s : Model) (h : PreInv s) :
    PreInv (removeElement nid eid s) := by
  unfold removeElement
  cases hg : getNodeById nid s with
  | none => exact h
  | some n =>
    dsimp only
    cases hf : removeFirst? (fun el => decide (el.id = eid)) n.elements with
    | none => exact h
    | some els =>
      dsimp only
      split
      · exact record_publish_PreInv _ _
          (PreInv_of_fields rfl rfl rfl rfl (PreInv_of_fields rfl rfl rfl rfl h))
      · exact record_publish_PreInv _ _ (PreInv_of_fields rfl rfl rfl rfl h)

theorem addConnection_PreInv (a b : Id) (s : Model) (h : PreInv s) :
    PreInv (addConnection a b s).2 := by
  unfold addConnection
  split
  · exact h
  · dsimp only
    split
    · exact h
    · exact record_publish_PreInv _ _ (PreInv_of_fields rfl rfl rfl rfl h)

theorem applyOp_PreInv (o : Op) (s : Model) (h : PreInv s) : PreInv (applyOp o s) := by
  cases o with
  | addNode t p => exact (addNode_Inv t p s h).1
  | updateNode nid d => exact updateNode_PreInv nid d s h
  | removeNode nid => exact removeNode_PreInv nid s h
  | addElement nid t => exact addElement_PreInv nid t s h
  | updateElement nid eid d => exact updateElement_PreInv nid eid d s h
  | removeElement nid eid => exact removeElement_PreInv nid eid s h
  | addConnection a b => exact addConnection_PreInv a b s h
  | removeConnection cid => exact removeConnection_PreInv cid s h
  | toggleNodeSelection nid ex => exact (toggleNodeSelection_Inv nid ex s h).1
  | setSelectedNode nid => exact setSelectedNode_PreInv nid s h
  | setSelectedElement nid eid => exact setSelectedElement_PreInv nid eid s h
  | setSelectedConnection cid => exact setSelectedConnection_PreInv cid s h

theorem applyOp_Inv (o : Op) (s : Model) (h : Inv s) (hr : isRecordingOp o = true) :
    Inv (applyOp o s) := by
  cases o with
  | addNode t p => exact addNode_Inv t p s h.1
  | updateNode nid d => exact updateNode_Inv nid d s h
  | removeNode nid => exact removeNode_Inv nid s h
  | addElement nid t => exact addElement_Inv nid t s h
  | updateElement nid eid d => exact updateElement_Inv nid eid d s h
  | removeElement nid eid => exact removeElement_Inv nid eid s h
  | addConnection a b => exact addConnection_Inv a b s h
  | removeConnection cid => exact removeConnection_Inv cid s h
  | toggleNodeSelection nid ex => exact toggleNodeSelection_Inv nid ex s h.1
  | setSelectedNode nid => exact absurd hr (by simp [isRecordingOp])
  | setSelectedElement nid eid => exact absurd hr (by simp [isRecordingOp])
  | setSelectedConnection cid => exact absurd hr (by simp [isRecordingOp])

theorem applyOps_PreInv (ops : List Op) :
    ∀ s : Model, PreInv s → PreInv (applyOps ops s) := by
  induction ops with
  | nil => intro s h; exact h
  | cons o ops ih =>
    intro s h
    exact ih _ (applyOp_PreInv o s h)

theorem applyOps_Inv (ops : List Op) :
    ∀ s : Model, Inv s → (∀ o ∈ ops, isRecordingOp o = true) →
      Inv (applyOps ops s) := by
  induction ops with
  | nil => intro s h _; exact h
  | cons o ops ih =>
    intro s h hr
    exact ih _ (applyOp_Inv o s h (hr o (by simp)))
      (fun o2 ho2 => hr o2 (by simp [ho2]))

/-! ## Helper lemmas about removeFirst? and updateFirst -/

theorem publish_nodes (e : Event) (s : Model) : (publish e s).nodes = s.nodes := rfl

theorem publish_connections (e : Event) (s : Model) :
    (publish e s).connections = s.connections := rfl

theorem publish_nextId (e : Event) (s : Model) : (publish e s).nextId = s.nextId := rfl

theorem publish_generated (e : Event) (s : Model) :
    (publish e s).generated = s.generated := rfl

theorem publish_history (e : Event) (s : Model) :
    (publish e s).history = s.history := rfl

theorem removeFirst?_none {p : α → Bool} :
    ∀ {l : List α}, removeFirst? p l = none → ∀ a ∈ l, p a = false := by
  intro l
  induction l with
  | nil => intro _ a ha; exact absurd ha (by simp)
  | cons x l ih =>
    intro h a ha
    unfold removeFirst? at h
    by_cases hp : p x
    · rw [if_pos hp] at h
      exact Option.noConfusion h
    · rw [if_neg hp] at h
      rcases List.mem_cons.mp ha with rfl | ha2
      · exact eq_false_of_ne_true hp
      · cases hr : removeFirst? p l with
        | some l2 => rw [hr] at h; exact Option.noConfusion h
        | none => exact ih hr a ha2

theorem removeFirst?_sublist {p : α → Bool} :
    ∀ {l l2 : List α}, removeFirst? p l = some l2 → l2.Sublist l := by
  intro l
  induction l with
  | nil => intro l2 h; exact Option.noConfusion h
  | cons x l ih =>
    intro l2 h
    unfold removeFirst? at h
    by_cases hp : p x
    · rw [if_pos hp] at h
      rw [← Option.some_inj.mp h]
      exact List.sublist_cons_self x l
    · rw [if_neg hp] at h
      cases hr : removeFirst? p l with
      | none => rw [hr] at h; exact Option.noConfusion h
      | some l3 =>
        rw [hr] at h
        have h2 : x :: l3 = l2 := by simpa using h
        rw [← h2]
        exact List.Sublist.cons₂ x (ih hr)

theorem removeFirst?_eq_filter {β : Type} [DecidableEq β] (key : α → β) (b : β) :
    ∀ {l l2 : List α}, (l.map key).Nodup →
      removeFirst? (fun a => decide (key a = b)) l = some l2 →
      l2 = l.filter (fun a => !(decide (key a = b))) := by
  intro l
  induction l with
  | nil => intro l2 _ h; exact Option.noConfusion h
  | cons x l ih =>
    intro l2 hnd h
    unfold removeFirst? at h
    by_cases hp : key x = b
    · rw [if_pos (by simp [hp])] at h
      rw [← Option.some_inj.mp h]
      rw [List.filter_cons]
      rw [if_neg (by simp [hp])]
      symm
      apply List.filter_eq_self.mpr
      intro a ha
      have : key a ≠ b := by
        intro he
        have hmem : key a ∈ l.map key := List.mem_map_of_mem key ha
        rw [he, ← hp] at hmem
        exact (List.nodup_cons.mp (by simpa using hnd)).1 hmem
      simp [this]
    · rw [if_neg (by simp [hp])] at h
      cases hr : removeFirst? (fun a => decide (key a = b)) l with
      | none => rw [hr] at h; exact Option.noConfusion h
      | some l3 =>
        rw [hr] at h
        have h2 : x :: l3 = l2 := by simpa using h
        rw [← h2]
        rw [List.filter_cons, if_pos (by simp [hp])]
        rw [ih (by simpa using (List.nodup_cons.mp (by simpa using hnd)).2) hr]

theorem updateFirst_map_key {β : Type} (key : α → β) (p : α → Bool) (f : α → α)
    (hf : ∀ a, key (f a) = key a) :
    ∀ l : List α, (updateFirst p f l).map key = l.map key := by
  intro l
  induction l with
  | nil => rfl
  | cons x l ih =>
    unfold updateFirst
    by_cases hp : p x
    · rw [if_pos hp]
      simp [hf]
    · rw [if_neg hp]
      simp [ih]

theorem mem_updateFirst {p : α → Bool} {f : α → α} :
    ∀ {l : List α} {a : α}, a ∈ updateFirst p f l →
      a ∈ l ∨ ∃ x ∈ l, a = f x := by
  intro l
  induction l with
  | nil => intro a ha; exact absurd ha (by simp [updateFirst])
  | cons x l ih =>
    intro a ha
    unfold updateFirst at ha
    by_cases hp : p x
    · rw [if_pos hp] at ha
      rcases List.mem_cons.mp ha with heq | ha2
      · exact Or.inr ⟨x, List.mem_cons_self x l, heq⟩
      · exact Or.inl (List.mem_cons_of_mem x ha2)
    · rw [if_neg hp] at ha
      rcases List.mem_cons.mp ha with heq | ha2
      · exact Or.inl (by rw [heq]; exact List.mem_cons_self x l)
      · rcases ih ha2 with h1 | ⟨y, hy, he⟩
        · exact Or.inl (List.mem_cons_of_mem x h1)
        · exact Or.inr ⟨y, List.mem_cons_of_mem x hy, he⟩

/-! ## Cascade analysis for removeNode -/

theorem mem_allIds {s : Model} {i : Id} : i ∈ allIds s ↔
    i ∈ nodeIds s ∨ i ∈ s.nodes.flatMap (fun n => n.elements.map Element.id)
      ∨ i ∈ connIds s := by
  unfold allIds
  simp [List.mem_append, or_assoc]

theorem nodeIds_filter_mem {s : Model} {x nodeId : Id}
    (hx : x ∈ nodeIds s) (hne : x ≠ nodeId) :
    x ∈ (s.nodes.filter (fun n => !(decide (n.id = nodeId)))).map Node.id := by
  unfold nodeIds at hx
  obtain ⟨n, hn, hid⟩ := List.mem_map.mp hx
  apply List.mem_map.mpr
  refine ⟨n, List.mem_filter.mpr ⟨hn, ?_⟩, hid⟩
  simp only [Bool.not_eq_eq_eq_not, Bool.not_true, decide_eq_false_iff_not]
  rw [hid]
  exact hne

theorem removeConnection_shape (cid : Id) (m : Model) (h : (connIds m).Nodup) :
    (removeConnection cid m).connections
      = m.connections.filter (fun c => !(decide (c.id = cid))) ∧
    (removeConnection cid m).nodes = m.nodes ∧
    (removeConnection cid m).nextId = m.nextId := by
  unfold removeConnection
  cases hr : removeFirst? (fun c => decide (c.id = cid)) m.connections with
  | none =>
    have hall := removeFirst?_none hr
    refine ⟨?_, rfl, rfl⟩
    symm
    apply List.filter_eq_self.mpr
    intro c hc
    simp [hall c hc]
  | some conns =>
    have he := removeFirst?_eq_filter Connection.id cid
      (by simpa [connIds] using h) hr
    dsimp only
    split
    · refine ⟨?_, ?_, ?_⟩
      · rw [publish_connections, recordHistory_connections]
        exact he
      · rw [publish_nodes, recordHistory_nodes]
        rfl
      · rw [publish_nextId, recordHistory_nextId]
        rfl
    · refine ⟨?_, ?_, ?_⟩
      · rw [publish_connections, recordHistory_connections]
        exact he
      · rw [publish_nodes, recordHistory_nodes]
      · rw [publish_nextId, recordHistory_nextId]

theorem foldl_removeConnection_shape (nodeId : Id) :
    ∀ (rel : List Connection) (m : Model),
      (connIds m).Nodup →
      (∀ c ∈ m.connections, (c.source = nodeId ∨ c.target = nodeId) →
          c.id ∈ rel.map Connection.id) →
      (rel.foldl (fun m2 c => removeConnection c.id m2) m).nodes = m.nodes ∧
      (rel.foldl (fun m2 c => removeConnection c.id m2) m).nextId = m.nextId ∧
      (connIds (rel.foldl (fun m2 c => removeConnection c.id m2) m)).Nodup ∧
      (∀ c ∈ (rel.foldl (fun m2 c => removeConnection c.id m2) m).connections,
          c ∈ m.connections) ∧
      (∀ c ∈ (rel.foldl (fun m2 c => removeConnection c.id m2) m).connections,
          c.source ≠ nodeId ∧ c.target ≠ nodeId) := by
  intro rel
  induction rel with
  | nil =>
    intro m hnd hsched
    refine ⟨rfl, rfl, hnd, fun c hc => hc, fun c hc => ?_⟩
    constructor
    · intro he
      simpa using hsched c hc (Or.inl he)
    · intro he
      simpa using hsched c hc (Or.inr he)
  | cons c0 rest ih =>
    intro m hnd hsched
    have hshape := removeConnection_shape c0.id m hnd
    have hnd2 : (connIds (removeConnection c0.id m)).Nodup := by
      unfold connIds
      rw [hshape.1]
      exact List.Nodup.sublist
        (List.Sublist.map Connection.id (List.filter_sublist _)) hnd
    have hsched2 : ∀ c ∈ (removeConnection c0.id m).connections,
        (c.source = nodeId ∨ c.target = nodeId) →
        c.id ∈ rest.map Connection.id := by
      intro c hc href
      rw [hshape.1] at hc
      have hcm := List.mem_filter.mp hc
      have hne : c.id ≠ c0.id := by simpa using hcm.2
      have hin := hsched c hcm.1 href
      simp only [List.map_cons, List.mem_cons] at hin
      rcases hin with h1 | h2
      · exact absurd h1 hne
      · exact h2
    have hfold := ih (removeConnection c0.id m) hnd2 hsched2
    refine ⟨?_, ?_, hfold.2.2.1, ?_, hfold.2.2.2.2⟩
    · rw [List.foldl_cons, hfold.1, hshape.2.1]
    · rw [List.foldl_cons, hfold.2.1, hshape.2.2]
    · intro c hc
      rw [List.foldl_cons] at hc
      have hm2 := hfold.2.2.2.1 c hc
      rw [hshape.1] at hm2
      exact (List.mem_filter.mp hm2).1

theorem GoodState_of_fields {s t : Model} (hn : t.nodes = s.nodes)
    (hc : t.connections = s.connections) (hx : t.nextId = s.nextId)
    (h : GoodState s) : GoodState t := by
  unfold GoodState connectionsValid allIds nodeIds connIds at h ⊢
  rw [hn, hc, hx]
  exact h

theorem GoodState_removeNode_final (s E : Model) (nodeId : Id)
    (hval : connectionsValid s) (hnnd : (nodeIds s).Nodup)
    (hbound : ∀ i ∈ allIds s, i.num < s.nextId)
    (hEnext : E.nextId = s.nextId)
    (hEcnd : (connIds E).Nodup)
    (hEsub : ∀ c ∈ E.connections, c ∈ s.connections)
    (hEref : ∀ c ∈ E.connections, c.source ≠ nodeId ∧ c.target ≠ nodeId)
    (hEnodes : E.nodes = s.nodes.filter (fun n => !(decide (n.id = nodeId)))) :
    GoodState E := by
  refine ⟨?_, ?_, hEcnd, ?_⟩
  · intro c hc
    have h1 := hEsub c hc
    have h2 := hEref c hc
    have hv := hval c h1
    constructor
    · show c.source ∈ nodeIds E
      unfold nodeIds
      rw [hEnodes]
      exact nodeIds_filter_mem hv.1 h2.1
    · show c.target ∈ nodeIds E
      unfold nodeIds
      rw [hEnodes]
      exact nodeIds_filter_mem hv.2 h2.2
  · unfold nodeIds
    rw [hEnodes]
    exact List.Nodup.sublist
      (List.Sublist.map Node.id (List.filter_sublist _)) hnnd
  · intro i hi
    rw [hEnext]
    rcases mem_allIds.mp hi with h1 | h2 | h3
    · unfold nodeIds at h1
      rw [hEnodes] at h1
      obtain ⟨n, hn, hid⟩ := List.mem_map.mp h1
      have hns : n ∈ s.nodes := (List.mem_filter.mp hn).1
      exact hbound i (mem_allIds.mpr (Or.inl
        (List.mem_map.mpr ⟨n, hns, hid⟩)))
    · rw [hEnodes] at h2
      obtain ⟨n, hn, hin⟩ := List.mem_flatMap.mp h2
      have hns : n ∈ s.nodes := (List.mem_filter.mp hn).1
      exact hbound i (mem_allIds.mpr (Or.inr (Or.inl
        (List.mem_flatMap.mpr ⟨n, hns, hin⟩))))
    · unfold connIds at h3
      obtain ⟨c, hc, hid⟩ := List.mem_map.mp h3
      exact hbound i (mem_allIds.mpr (Or.inr (Or.inr
        (List.mem_map.mpr ⟨c, hEsub c hc, hid⟩))))

theorem cascade_transport (E u : Model) (nodeId : Id)
    (hn : E.nodes = u.nodes) (hc : E.connections = u.connections)
    (hx : E.nextId = u.nextId)
    (h1 : ∀ c ∈ u.connections, c.source ≠ nodeId ∧ c.target ≠ nodeId)
    (h2 : GoodState u) :
    (∀ c ∈ E.connections, c.source ≠ nodeId ∧ c.target ≠ nodeId) ∧
    GoodState E := by
  constructor
  · rw [hc]
    exact h1
  · exact GoodState_of_fields hn hc hx h2

theorem removeNode_shape (nodeId : Id) (s : Model) (hg : GoodState s) :
    (∀ c ∈ (removeNode nodeId s).connections,
        c.source ≠ nodeId ∧ c.target ≠ nodeId) ∧
    GoodState (removeNode nodeId s) := by
  obtain ⟨hval, hnnd, hcnd, hbound⟩ := hg
  unfold removeNode
  cases hr : removeFirst? (fun n => decide (n.id = nodeId)) s.nodes with
  | none =>
    have hnone := removeFirst?_none hr
    have hnid : nodeId ∉ nodeIds s := by
      intro hmem
      obtain ⟨n, hn, hid⟩ := List.mem_map.mp hmem
      have hfalse := hnone n hn
      simp [hid] at hfalse
    refine ⟨?_, hval, hnnd, hcnd, hbound⟩
    intro c hc
    have hv := hval c hc
    constructor
    · intro he
      exact hnid (he ▸ hv.1)
    · intro he
      exact hnid (he ▸ hv.2)
  | some nodes2 =>
    have hnodes2 : nodes2 = s.nodes.filter (fun n => !(decide (n.id = nodeId))) :=
      removeFirst?_eq_filter Node.id nodeId (by simpa [nodeIds] using hnnd) hr
    dsimp only
    have hfold := foldl_removeConnection_shape nodeId
      (({ s with nodes := nodes2 } : Model).connections.filter
        (fun c => decide (c.source = nodeId) || decide (c.target = nodeId)))
      { s with nodes := nodes2 }
      hcnd
      (by
        intro c hc href
        apply List.mem_map_of_mem
        apply List.mem_filter.mpr
        refine ⟨hc, ?_⟩
        rcases href with h1 | h1 <;> simp [h1])
    have hF := GoodState_removeNode_final s _ nodeId hval hnnd hbound
      hfold.2.1 hfold.2.2.1 hfold.2.2.2.1 hfold.2.2.2.2
      (by rw [hfold.1]; exact hnodes2)
    split
    · exact cascade_transport _ _ nodeId
        (by rw [publish_nodes, recordHistory_nodes]; rfl)
        (by rw [publish_connections, recordHistory_connections]; rfl)
        (by rw [publish_nextId, recordHistory_nextId]; rfl)
        hfold.2.2.2.2 hF
    · exact cascade_transport _ _ nodeId
        (by rw [publish_nodes, recordHistory_nodes])
        (by rw [publish_connections, recordHistory_connections])
        (by rw [publish_nextId, recordHistory_nextId])
        hfold.2.2.2.2 hF

theorem GoodState_record_publish (e : Event) (u : Model) (h : GoodState u) :
    GoodState (publish e (recordHistory u)) :=
  GoodState_of_fields (by rw [publish_nodes, recordHistory_nodes])
    (by rw [publish_connections, recordHistory_connections])
    (by rw [publish_nextId, recordHistory_nextId]) h

theorem GoodState_publish_record (e : Event) (u : Model) (h : GoodState u) :
    GoodState (recordHistory (publish e u)) :=
  GoodState_of_fields (by rw [recordHistory_nodes, publish_nodes])
    (by rw [recordHistory_connections, publish_connections])
    (by rw [recordHistory_nextId, publish_nextId]) h

theorem getNodeById_mem {a : Id} {s : Model} {n : Node}
    (h : getNodeById a s = some n) : a ∈ nodeIds s := by
  unfold getNodeById at h
  have hm := List.mem_of_find?_eq_some h
  have hp := List.find?_some h
  simp only [decide_eq_true_eq] at hp
  unfold nodeIds
  rw [← hp]
  exact List.mem_map_of_mem Node.id hm

theorem GoodState_nodes_update (s t : Model)
    (hc : t.connections = s.connections)
    (hkey : nodeIds t = nodeIds s)
    (hnx : s.nextId ≤ t.nextId)
    (helem : ∀ i, i ∈ t.nodes.flatMap (fun n => n.elements.map Element.id) →
        i ∈ s.nodes.flatMap (fun n => n.elements.map Element.id) ∨ i.num < t.nextId)
    (h : GoodState s) : GoodState t := by
  obtain ⟨hval, hnnd, hcnd, hbound⟩ := h
  refine ⟨?_, ?_, ?_, ?_⟩
  · intro c hcm
    rw [hc] at hcm
    have hv := hval c hcm
    refine ⟨?_, ?_⟩ <;> rw [hkey]
    · exact hv.1
    · exact hv.2
  · rw [hkey]
    exact hnnd
  · unfold connIds at hcnd ⊢
    rw [hc]
    exact hcnd
  · intro i hi
    rcases mem_allIds.mp hi with h1 | h2 | h3
    · rw [hkey] at h1
      have := hbound i (mem_allIds.mpr (Or.inl h1))
      omega
    · rcases helem i h2 with h4 | h4
      · have := hbound i (mem_allIds.mpr (Or.inr (Or.inl h4)))
        omega
      · exact h4
    · unfold connIds at h3
      rw [hc] at h3
      have := hbound i (mem_allIds.mpr (Or.inr (Or.inr h3)))
      omega

theorem GoodState_addNode_step (s t : Model) (node : Node)
    (hn : t.nodes = s.nodes ++ [node]) (hc : t.connections = s.connections)
    (hx : s.nextId ≤ t.nextId)
    (hnode : s.nextId ≤ node.id.num ∧ node.id.num < t.nextId)
    (helems : ∀ i ∈ node.elements.map Element.id,
        s.nextId ≤ i.num ∧ i.num < t.nextId)
    (h : GoodState s) : GoodState t := by
  obtain ⟨hval, hnnd, hcnd, hbound⟩ := h
  refine ⟨?_, ?_, ?_, ?_⟩
  · intro c hcm
    rw [hc] at hcm
    have hv := hval c hcm
    unfold nodeIds
    rw [hn, List.map_append]
    exact ⟨List.mem_append_left _ hv.1, List.mem_append_left _ hv.2⟩
  · unfold nodeIds
    rw [hn, List.map_append]
    refine List.Nodup.append hnnd (by simp) ?_
    intro x hx1 hx2
    have hb := hbound x (mem_allIds.mpr (Or.inl hx1))
    simp only [List.map_cons, List.map_nil, List.mem_cons,
      List.not_mem_nil, or_false] at hx2
    rw [hx2] at hb
    omega
  · unfold connIds
    rw [hc]
    exact hcnd
  · intro i hi
    rcases mem_allIds.mp hi with h1 | h2 | h3
    · unfold nodeIds at h1
      rw [hn, List.map_append] at h1
      rcases List.mem_append.mp h1 with h4 | h4
      · have := hbound i (mem_allIds.mpr (Or.inl h4))
        omega
      · simp only [List.map_cons, List.map_nil, List.mem_cons,
          List.not_mem_nil, or_false] at h4
        rw [h4]
        exact hnode.2
    · rw [hn] at h2
      rw [List.flatMap_append] at h2
      rcases List.mem_append.mp h2 with h4 | h4
      · have := hbound i (mem_allIds.mpr (Or.inr (Or.inl h4)))
        omega
      · simp only [List.flatMap_cons, List.flatMap_nil, List.append_nil] at h4
        exact (helems i h4).2
    · unfold connIds at h3
      rw [hc] at h3
      have := hbound i (mem_allIds.mpr (Or.inr (Or.inr h3)))
      omega

theorem GoodState_addConnection_step (s t : Model) (c0 : Connection)
    (hn : t.nodes = s.nodes) (hc : t.connections = s.connections ++ [c0])
    (hx : s.nextId ≤ t.nextId)
    (hid : s.nextId ≤ c0.id.num ∧ c0.id.num < t.nextId)
    (hsrc : c0.source ∈ nodeIds s) (htgt : c0.target ∈ nodeIds s)
    (h : GoodState s) : GoodState t := by
  obtain ⟨hval, hnnd, hcnd, hbound⟩ := h
  have hkey : nodeIds t = nodeIds s := by
    unfold nodeIds
    rw [hn]
  refine ⟨?_, ?_, ?_, ?_⟩
  · intro c hcm
    rw [hc] at hcm
    rw [hkey]
    rcases List.mem_append.mp hcm with h4 | h4
    · exact hval c h4
    · simp only [List.mem_cons, List.not_mem_nil, or_false] at h4
      rw [h4]
      exact ⟨hsrc, htgt⟩
  · rw [hkey]
    exact hnnd
  · unfold connIds
    rw [hc, List.map_append]
    refine List.Nodup.append hcnd (by simp) ?_
    intro x hx1 hx2
    have hb := hbound x (mem_allIds.mpr (Or.inr (Or.inr hx1)))
    simp only [List.map_cons, List.map_nil, List.mem_cons,
      List.not_mem_nil, or_false] at hx2
    rw [hx2] at hb
    omega
  · intro i hi
    rcases mem_allIds.mp hi with h1 | h2 | h3
    · rw [hkey] at h1
      have := hbound i (mem_allIds.mpr (Or.inl h1))
      omega
    · rw [hn] at h2
      have := hbound i (mem_allIds.mpr (Or.inr (Or.inl h2)))
      omega
    · unfold connIds at h3
      rw [hc, List.map_append] at h3
      rcases List.mem_append.mp h3 with h4 | h4
      · have := hbound i (mem_allIds.mpr (Or.inr (Or.inr h4)))
        omega
      · simp only [List.map_cons, List.map_nil, List.mem_cons,
          List.not_mem_nil, or_false] at h4
        rw [h4]
        exact hid.2

theorem updateNode_GoodState (nid : Id) (d : UpdateNodeData) (s : Model)
    (h : GoodState s) : GoodState (updateNode nid d s) := by
  unfold updateNode
  cases hg : getNodeById nid s with
  | none => exact h
  | some n =>
    apply GoodState_record_publish
    refine GoodState_nodes_update s _ rfl ?_ (Nat.le_refl _) ?_ h
    · apply updateFirst_map_key
      intro a
      rfl
    · intro i hi
      left
      obtain ⟨n2, hn2, hin⟩ := List.mem_flatMap.mp hi
      rcases mem_updateFirst hn2 with h1 | ⟨x, hx2, he⟩
      · exact List.mem_flatMap.mpr ⟨n2, h1, hin⟩
      · rw [he] at hin
        exact List.mem_flatMap.mpr ⟨x, hx2, hin⟩

theorem updateElement_GoodState (nid eid : Id) (d : ElementData) (s : Model)
    (h : GoodState s) : GoodState (updateElement nid eid d s) := by
  unfold updateElement
  cases hg : getNodeById nid s with
  | none => exact h
  | some n =>
    dsimp only
    cases hf : n.elements.find? (fun el => decide (el.id = eid)) with
    | none => exact h
    | some el =>
      apply GoodState_record_publish
      refine GoodState_nodes_update s _ rfl ?_ (Nat.le_refl _) ?_ h
      · apply updateFirst_map_key
        intro a
        rfl
      · intro i hi
        left
        obtain ⟨n2, hn2, hin⟩ := List.mem_flatMap.mp hi
        rcases mem_updateFirst hn2 with h1 | ⟨x, hx2, he⟩
        · exact List.mem_flatMap.mpr ⟨n2, h1, hin⟩
        · rw [he] at hin
          have hin2 : i ∈ x.elements.map Element.id := by
            rw [← updateFirst_map_key Element.id
              (fun el => decide (el.id = eid))
              (fun el => { el with data := mergeData el.data d })
              (fun a => rfl) x.elements]
            exact hin
          exact List.mem_flatMap.mpr ⟨x, hx2, hin2⟩

theorem addElement_GoodState (nid : Id) (t : String) (s : Model)
    (h : GoodState s) : GoodState (addElement nid t s).2 := by
  unfold addElement
  cases hg : getNodeById nid s with
  | none => exact h
  | some n =>
    apply GoodState_record_publish
    refine GoodState_nodes_update s _ rfl ?_ (Nat.le_succ _) ?_ h
    · apply updateFirst_map_key
      intro a
      rfl
    · intro i hi
      obtain ⟨n2, hn2, hin⟩ := List.mem_flatMap.mp hi
      rcases mem_updateFirst hn2 with h1 | ⟨x, hx2, he⟩
      · exact Or.inl (List.mem_flatMap.mpr ⟨n2, h1, hin⟩)
      · rw [he] at hin
        simp only [List.map_append, List.map_cons, List.map_nil] at hin
        rcases List.mem_append.mp hin with h4 | h4
        · exact Or.inl (List.mem_flatMap.mpr ⟨x, hx2, h4⟩)
        · right
          simp only [List.mem_cons, List.not_mem_nil, or_false] at h4
          rw [h4]
          exact Nat.lt_succ_self _

theorem removeElement_GoodState (nid eid : Id) (s : Model)
    (h : GoodState s) : GoodState (removeElement nid eid s) := by
  unfold removeElement
  cases hg : getNodeById nid s with
  | none => exact h
  | some n =>
    dsimp only
    cases hf : removeFirst? (fun el => decide (el.id = eid)) n.elements with
    | none => exact h
    | some els =>
      have hmain : ∀ u : Model,
          u.nodes = updateFirst (fun n2 => decide (n2.id = nid))
            (fun n2 => { n2 with elements := els }) s.nodes →
          u.connections = s.connections → u.nextId = s.nextId →
          GoodState u := by
        intro u hun huc hux
        refine GoodState_nodes_update s u huc ?_ (by omega) ?_ h
        · unfold nodeIds
          rw [hun]
          apply updateFirst_map_key
          intro a
          rfl
        · intro i hi
          left
          rw [hun] at hi
          obtain ⟨n2, hn2, hin⟩ := List.mem_flatMap.mp hi
          rcases mem_updateFirst hn2 with h1 | ⟨x, hx2, he⟩
          · exact List.mem_flatMap.mpr ⟨n2, h1, hin⟩
          · rw [he] at hin
            have hsub : els.Sublist n.elements := removeFirst?_sublist hf
            have hin2 : i ∈ n.elements.map Element.id :=
              (List.Sublist.map Element.id hsub).subset hin
            have hnm : n ∈ s.nodes := by
              unfold getNodeById at hg
              exact List.mem_of_find?_eq_some hg
            exact List.mem_flatMap.mpr ⟨n, hnm, hin2⟩
      dsimp only
      split
      · apply GoodState_record_publish
        exact hmain _ rfl rfl rfl
      · apply GoodState_record_publish
        exact hmain _ rfl rfl rfl

theorem addNode_GoodState (t : String) (p : Pos) (s : Model)
    (h : GoodState s) : GoodState (addNode t p s).2 := by
  unfold addNode
  dsimp only
  apply GoodState_record_publish
  refine GoodState_addNode_step s _ _ rfl rfl
    (show s.nextId ≤ s.nextId + 1 + 1 by omega) ?_ ?_ h
  · constructor
    · exact Nat.le_refl _
    · show s.nextId < s.nextId + 1 + 1
      omega
  · intro i hi
    simp only [List.map_cons, List.map_nil, List.mem_cons,
      List.not_mem_nil, or_false] at hi
    rw [hi]
    constructor
    · exact Nat.le_succ _
    · show s.nextId + 1 < s.nextId + 1 + 1
      omega

theorem addConnection_GoodState (a b : Id) (s : Model)
    (h : GoodState s) : GoodState (addConnection a b s).2 := by
  unfold addConnection
  split
  · exact h
  · rename_i hcond
    dsimp only
    cases hfind : s.connections.find?
        (fun c => decide (c.source = a) && decide (c.target = b)) with
    | some c => exact h
    | none =>
      have ha : ∃ n, getNodeById a s = some n := by
        cases hg : getNodeById a s with
        | none => exact absurd (Or.inl (by rw [hg]; rfl)) hcond
        | some n => exact ⟨n, rfl⟩
      have hb : ∃ n, getNodeById b s = some n := by
        cases hg : getNodeById b s with
        | none => exact absurd (Or.inr (by rw [hg]; rfl)) hcond
        | some n => exact ⟨n, rfl⟩
      obtain ⟨na, hna⟩ := ha
      obtain ⟨nb, hnb⟩ := hb
      apply GoodState_record_publish
      refine GoodState_addConnection_step s _ _ rfl rfl (Nat.le_succ _)
        ⟨Nat.le_refl _, Nat.lt_succ_self _⟩
        (getNodeById_mem hna) (getNodeById_mem hnb) h

theorem toggleNodeSelection_GoodState (nid : Option Id) (ex : Bool) (s : Model)
    (h : GoodState s) : GoodState (toggleNodeSelection nid ex s) := by
  unfold toggleNodeSelection
  dsimp only
  repeat' split
  all_goals exact GoodState_publish_record _ _ (GoodState_of_fields rfl rfl rfl h)

theorem removeConnection_GoodState (cid : Id) (s : Model)
    (h : GoodState s) : GoodState (removeConnection cid s) := by
  obtain ⟨hval, hnnd, hcnd, hbound⟩ := h
  have hshape := removeConnection_shape cid s hcnd
  refine ⟨?_, ?_, ?_, ?_⟩
  · intro c hc
    rw [hshape.1] at hc
    have hv := hval c (List.mem_filter.mp hc).1
    unfold nodeIds
    rw [hshape.2.1]
    exact hv
  · unfold nodeIds
    rw [hshape.2.1]
    exact hnnd
  · unfold connIds
    rw [hshape.1]
    exact List.Nodup.sublist
      (List.Sublist.map Connection.id (List.filter_sublist _)) hcnd
  · intro i hi
    rw [hshape.2.2]
    rcases mem_allIds.mp hi with h1 | h2 | h3
    · apply hbound
      apply mem_allIds.mpr
      left
      unfold nodeIds at h1 ⊢
      rw [hshape.2.1] at h1
      exact h1
    · apply hbound
      apply mem_allIds.mpr
      right; left
      rw [hshape.2.1] at h2
      exact h2
    · apply hbound
      apply mem_allIds.mpr
      right; right
      unfold connIds at h3 ⊢
      rw [hshape.1] at h3
      obtain ⟨c, hc, hid⟩ := List.mem_map.mp h3
      exact List.mem_map.mpr ⟨c, (List.mem_filter.mp hc).1, hid⟩

theorem applyOp_GoodState (o : Op) (s : Model) (h : GoodState s) :
    GoodState (applyOp o s) := by
  cases o with
  | addNode t p => exact addNode_GoodState t p s h
  | updateNode nid d => exact updateNode_GoodState nid d s h
  | removeNode nid => exact (removeNode_shape nid s h).2
  | addElement nid t => exact addElement_GoodState nid t s h
  | updateElement nid eid d => exact updateElement_GoodState nid eid d s h
  | removeElement nid eid => exact removeElement_GoodState nid eid s h
  | addConnection a b => exact addConnection_GoodState a b s h
  | removeConnection cid => exact removeConnection_GoodState cid s h
  | toggleNodeSelection nid ex => exact toggleNodeSelection_GoodState nid ex s h
  | setSelectedNode nid => exact GoodState_of_fields rfl rfl rfl h
  | setSelectedElement nid eid => exact GoodState_of_fields rfl rfl rfl h
  | setSelectedConnection cid => exact GoodState_of_fields rfl rfl rfl h

theorem applyOps_GoodState (ops : List Op) :
    ∀ s : Model, GoodState s → GoodState (applyOps ops s) := by
  induction ops with
  | nil => intro s h; exact h
  | cons o ops ih =>
    intro s h
    exact ih _ (applyOp_GoodState o s h)

/-! ## C4: cascade integrity -/

/-- C4: on every document satisfying the reachable-state invariant GoodState
(valid connection endpoints, unique node and connection ids, id counter above
every stored id — established initially and preserved by every modelled
operation), removeNode leaves no connection whose source or target is the
removed id, and after any operation sequence every connection endpoint still
names an existing node. -/
theorem cascade_integrity (s : Model) (h : GoodState s) :
    (∀ nodeId : Id, ∀ c ∈ (removeNode nodeId s).connections,
        c.source ≠ nodeId ∧ c.target ≠ nodeId) ∧
    (∀ ops : List Op, connectionsValid (applyOps ops s)) :=
  ⟨fun nodeId => (removeNode_shape nodeId s h).1,
   fun ops => (applyOps_GoodState ops s h).1⟩

/-- C4 witness: removing node_1 from the concrete three-operation document
deletes the conn_5 connection it anchors. -/
theorem cascade_integrity_witness :
    GoodState (applyOps [Op.addNode "start" ⟨300, 150⟩,
        Op.addNode "message" ⟨600, 150⟩,
        Op.addConnection ⟨"node", 1⟩ ⟨"node", 3⟩] initialModel) ∧
    (∀ c ∈ (removeNode ⟨"node", 1⟩ (applyOps [Op.addNode "start" ⟨300, 150⟩,
        Op.addNode "message" ⟨600, 150⟩,
        Op.addConnection ⟨"node", 1⟩ ⟨"node", 3⟩] initialModel)).connections,
      c.source ≠ ⟨"node", 1⟩ ∧ c.target ≠ ⟨"node", 1⟩) :=
  ⟨by decide,
   (cascade_integrity (applyOps [Op.addNode "start" ⟨300, 150⟩,
        Op.addNode "message" ⟨600, 150⟩,
        Op.addConnection ⟨"node", 1⟩ ⟨"node", 3⟩] initialModel)
      (by decide)).1 ⟨"node", 1⟩⟩

/-! ## Freshness of generated ids -/

theorem removeConnection_ghost (cid : Id) (m : Model) :
    (removeConnection cid m).generated = m.generated ∧
    (removeConnection cid m).nextId = m.nextId := by
  unfold removeConnection
  cases hr : removeFirst? (fun c => decide (c.id = cid)) m.connections with
  | none => exact ⟨rfl, rfl⟩
  | some conns =>
    dsimp only
    split
    · exact ⟨by rw [publish_generated, recordHistory_generated]; rfl,
        by rw [publish_nextId, recordHistory_nextId]; rfl⟩
    · exact ⟨by rw [publish_generated, recordHistory_generated],
        by rw [publish_nextId, recordHistory_nextId]⟩

theorem foldl_removeConnection_ghost (l : List Connection) :
    ∀ m : Model,
      (l.foldl (fun m2 c => removeConnection c.id m2) m).generated = m.generated ∧
      (l.foldl (fun m2 c => removeConnection c.id m2) m).nextId = m.nextId := by
  induction l with
  | nil => intro m; exact ⟨rfl, rfl⟩
  | cons c l ih =>
    intro m
    have h1 := removeConnection_ghost c.id m
    have h2 := ih (removeConnection c.id m)
    exact ⟨by rw [List.foldl_cons, h2.1, h1.1], by rw [List.foldl_cons, h2.2, h1.2]⟩

theorem applyOp_ghost (o : Op) (s : Model) :
    s.nextId ≤ (applyOp o s).nextId ∧
    ∀ i ∈ (applyOp o s).generated, i ∈ s.generated ∨ s.nextId ≤ i.num := by
  cases o with
  | addNode t p =>
    constructor
    · show s.nextId ≤ (addNode t p s).2.nextId
      unfold addNode
      dsimp only
      rw [publish_nextId, recordHistory_nextId]
      show s.nextId ≤ s.nextId + 1 + 1
      omega
    · show ∀ i ∈ (addNode t p s).2.generated, _
      unfold addNode
      dsimp only
      rw [publish_generated, recordHistory_generated]
      intro i hi
      simp only [generateId, List.append_assoc, List.mem_append,
        List.mem_cons, List.not_mem_nil, or_false] at hi
      rcases hi with h1 | h1 | h1
      · exact Or.inl h1
      · right; rw [h1]
      · right; rw [h1]; exact Nat.le_succ _
  | updateNode nid d =>
    rw [show applyOp (Op.updateNode nid d) s = updateNode nid d s from rfl]
    unfold updateNode
    cases hg : getNodeById nid s with
    | none => exact ⟨Nat.le_refl _, fun i hi => Or.inl hi⟩
    | some n =>
      refine ⟨?_, ?_⟩
      · rw [publish_nextId, recordHistory_nextId]
      · rw [publish_generated, recordHistory_generated]
        exact fun i hi => Or.inl hi
  | removeNode nid =>
    rw [show applyOp (Op.removeNode nid) s = removeNode nid s from rfl]
    unfold removeNode
    cases hr : removeFirst? (fun n => decide (n.id = nid)) s.nodes with
    | none => exact ⟨Nat.le_refl _, fun i hi => Or.inl hi⟩
    | some nodes2 =>
      dsimp only
      have key : ∀ u : Model, u.generated = s.generated → u.nextId = s.nextId →
          s.nextId ≤ (publish (Event.nodeRemoved nid) (recordHistory u)).nextId ∧
          ∀ i ∈ (publish (Event.nodeRemoved nid) (recordHistory u)).generated,
            i ∈ s.generated ∨ s.nextId ≤ i.num := by
        intro u hug hux
        refine ⟨?_, ?_⟩
        · rw [publish_nextId, recordHistory_nextId, hux]
        · rw [publish_generated, recordHistory_generated, hug]
          exact fun i hi => Or.inl hi
      have hfoldg := foldl_removeConnection_ghost
        (({ s with nodes := nodes2 } : Model).connections.filter
          (fun c => decide (c.source = nid) || decide (c.target = nid)))
        { s with nodes := nodes2 }
      split
      · exact key _ hfoldg.1 hfoldg.2
      · exact key _ hfoldg.1 hfoldg.2
  | addElement nid t =>
    rw [show applyOp (Op.addElement nid t) s = (addElement nid t s).2 from rfl]
    unfold addElement
    cases hg : getNodeById nid s with
    | none => exact ⟨Nat.le_refl _, fun i hi => Or.inl hi⟩
    | some n =>
      refine ⟨?_, ?_⟩
      · rw [publish_nextId, recordHistory_nextId]
        show s.nextId ≤ s.nextId + 1
        omega
      · rw [publish_generated, recordHistory_generated]
        intro i hi
        simp only [generateId, List.mem_append, List.mem_cons,
          List.not_mem_nil, or_false] at hi
        rcases hi with h1 | h1
        · exact Or.inl h1
        · right; rw [h1]
  | updateElement nid eid d =>
    rw [show applyOp (Op.updateElement nid eid d) s = updateElement nid eid d s from rfl]
    unfold updateElement
    cases hg : getNodeById nid s with
    | none => exact ⟨Nat.le_refl _, fun i hi => Or.inl hi⟩
    | some n =>
      dsimp only
      cases hf : n.elements.find? (fun el => decide (el.id = eid)) with
      | none => exact ⟨Nat.le_refl _, fun i hi => Or.inl hi⟩
      | some el =>
        refine ⟨?_, ?_⟩
        · rw [publish_nextId, recordHistory_nextId]
        · rw [publish_generated, recordHistory_generated]
          exact fun i hi => Or.inl hi
  | removeElement nid eid =>
    rw [show applyOp (Op.removeElement nid eid) s = removeElement nid eid s from rfl]
    unfold removeElement
    cases hg : getNodeById nid s with
    | none => exact ⟨Nat.le_refl _, fun i hi => Or.inl hi⟩
    | some n =>
      dsimp only
      cases hf : removeFirst? (fun el => decide (el.id = eid)) n.elements with
      | none => exact ⟨Nat.le_refl _, fun i hi => Or.inl hi⟩
      | some els =>
        dsimp only
        split
        · refine ⟨?_, ?_⟩
          · rw [publish_nextId, recordHistory_nextId]
            exact Nat.le_refl _
          · rw [publish_generated, recordHistory_generated]
            exact fun i hi => Or.inl hi
        · refine ⟨?_, ?_⟩
          · rw [publish_nextId, recordHistory_nextId]
          · rw [publish_generated, recordHistory_generated]
            exact fun i hi => Or.inl hi
  | addConnection a b =>
    rw [show applyOp (Op.addConnection a b) s = (addConnection a b s).2 from rfl]
    unfold addConnection
    split
    · exact ⟨Nat.le_refl _, fun i hi => Or.inl hi⟩
    · dsimp only
      cases hf : s.connections.find?
          (fun c => decide (c.source = a) && decide (c.target = b)) with
      | some c => exact ⟨Nat.le_refl _, fun i hi => Or.inl hi⟩
      | none =>
        refine ⟨?_, ?_⟩
        · rw [publish_nextId, recordHistory_nextId]
          show s.nextId ≤ s.nextId + 1
          omega
        · rw [publish_generated, recordHistory_generated]
          intro i hi
          simp only [generateId, List.mem_append, List.mem_cons,
            List.not_mem_nil, or_false] at hi
          rcases hi with h1 | h1
          · exact Or.inl h1
          · right; rw [h1]
  | removeConnection cid =>
    have h1 := removeConnection_ghost cid s
    exact ⟨by rw [show (applyOp (Op.removeConnection cid) s) = removeConnection cid s
        from rfl, h1.2], fun i hi => Or.inl (by rw [show (applyOp (Op.removeConnection cid) s)
        = removeConnection cid s from rfl, h1.1] at hi; exact hi)⟩
  | toggleNodeSelection nid ex =>
    rw [show applyOp (Op.toggleNodeSelection nid ex) s = toggleNodeSelection nid ex s from rfl]
    unfold toggleNodeSelection
    dsimp only
    repeat' split
    all_goals exact ⟨by rw [recordHistory_nextId, publish_nextId],
      fun i hi => Or.inl (by rw [recordHistory_generated, publish_generated] at hi; exact hi)⟩
  | setSelectedNode nid => exact ⟨Nat.le_refl _, fun i hi => Or.inl hi⟩
  | setSelectedElement nid eid => exact ⟨Nat.le_refl _, fun i hi => Or.inl hi⟩
  | setSelectedConnection cid => exact ⟨Nat.le_refl _, fun i hi => Or.inl hi⟩

theorem applyOps_ghost (ops : List Op) : ∀ s : Model,
    s.nextId ≤ (applyOps ops s).nextId ∧
    ∀ i ∈ (applyOps ops s).generated, i ∈ s.generated ∨ s.nextId ≤ i.num := by
  induction ops with
  | nil => intro s; exact ⟨Nat.le_refl _, fun i hi => Or.inl hi⟩
  | cons o ops ih =>
    intro s
    have h1 := applyOp_ghost o s
    have h2 := ih (applyOp o s)
    refine ⟨Nat.le_trans h1.1 h2.1, ?_⟩
    intro i hi
    rcases h2.2 i hi with h3 | h3
    · rcases h1.2 i h3 with h4 | h4
      · exact Or.inl h4
      · exact Or.inr h4
    · exact Or.inr (Nat.le_trans h1.1 h3)

theorem foldl_grow (step : Nat → α → Nat) (hgrow : ∀ m a, m ≤ step m a) :
    ∀ (l : List α) (m : Nat), m ≤ l.foldl step m := by
  intro l
  induction l with
  | nil => intro m; exact Nat.le_refl m
  | cons a l ih => intro m; exact Nat.le_trans (hgrow m a) (ih (step m a))

theorem foldl_mem_le (step : Nat → α → Nat) (hgrow : ∀ m a, m ≤ step m a) :
    ∀ (l : List α) (m : Nat) (a : α), a ∈ l → ∀ v : Nat,
      (∀ m2, v ≤ step m2 a) → v ≤ l.foldl step m := by
  intro l
  induction l with
  | nil => intro m a ha; exact absurd ha (by simp)
  | cons x l ih =>
    intro m a ha v hv
    rcases List.mem_cons.mp ha with heq | hmem
    · exact Nat.le_trans (heq ▸ hv m) (foldl_grow step hgrow l (step m x))
    · exact ih (step m x) a hmem v hv

theorem nodeMax_grow : ∀ (m : Nat) (n : Node), m ≤ nodeMax m n := by
  intro m n
  unfold nodeMax
  exact Nat.le_trans (Nat.le_max_left m n.id.num)
    (foldl_grow _ (fun m2 e => Nat.le_max_left _ _) n.elements (max m n.id.num))

theorem maxIdOf_bound (data : ImportData) :
    (∀ n ∈ data.nodes, n.id.num ≤ maxIdOf data ∧
      ∀ e ∈ n.elements, e.id.num ≤ maxIdOf data) ∧
    (∀ c ∈ data.connections, c.id.num ≤ maxIdOf data) := by
  unfold maxIdOf
  have hgrow2 : ∀ (m : Nat) (c : Connection), m ≤ max m c.id.num :=
    fun m c => Nat.le_max_left _ _
  constructor
  · intro n hn
    constructor
    · refine Nat.le_trans ?_ (foldl_grow _ hgrow2 data.connections _)
      apply foldl_mem_le nodeMax nodeMax_grow data.nodes 0 n hn
      intro m2
      unfold nodeMax
      exact Nat.le_trans (Nat.le_max_right m2 n.id.num)
        (foldl_grow _ (fun m3 e => Nat.le_max_left _ _) n.elements _)
    · intro e he
      refine Nat.le_trans ?_ (foldl_grow _ hgrow2 data.connections _)
      apply foldl_mem_le nodeMax nodeMax_grow data.nodes 0 n hn
      intro m2
      unfold nodeMax
      exact foldl_mem_le _ (fun m3 e2 => Nat.le_max_left _ _) n.elements _
        e he e.id.num (fun m3 => Nat.le_max_right _ _)
  · intro c hc
    exact foldl_mem_le _ hgrow2 data.connections _ c hc c.id.num
      (fun m2 => Nat.le_max_right _ _)

theorem recordHistory_of_empty (u : Model) (hf : u.isRecordingHistory = true)
    (hh : u.history = []) (hi : u.historyIndex = -1) :
    (recordHistory u).history = [docOf u] := by
  unfold recordHistory
  rw [if_neg (by rw [hf]; simp)]
  show (recordHistoryCore u).1 = [docOf u]
  unfold recordHistoryCore
  rw [hh, hi]
  norm_num

/-! ## C7: import recomputes the counter and never reuses imported ids -/

/-- C7: importing the exported document reproduces the nodes and the
connections, resets the id counter to one plus the maximal numeric suffix
over all node, element and connection ids, reseeds the history with exactly
one snapshot of the live state, bounds every imported id below the counter,
and every id generated by any subsequent operation sequence differs from all
imported ids. -/
theorem importData_roundtrip (s : Model) (h : s.isRecordingHistory = true) :
    (importData (exportData s) s).nodes = s.nodes ∧
    (importData (exportData s) s).connections = s.connections ∧
    (importData (exportData s) s).nextId = maxIdOf (exportData s) + 1 ∧
    (importData (exportData s) s).history
      = [docOf (importData (exportData s) s)] ∧
    (∀ i ∈ allIds (importData (exportData s) s),
        i.num < (importData (exportData s) s).nextId) ∧
    (∀ ops : List Op,
        ∀ i ∈ (applyOps ops (importData (exportData s) s)).generated,
          i ∉ allIds (importData (exportData s) s)) := by
  have hbound : ∀ i ∈ allIds (importData (exportData s) s),
      i.num < maxIdOf (exportData s) + 1 := by
    intro i hi
    have hb := maxIdOf_bound (exportData s)
    have hnodes : (importData (exportData s) s).nodes = s.nodes := by
      unfold importData
      rw [publish_nodes, recordHistory_nodes]
      rfl
    have hconns : (importData (exportData s) s).connections = s.connections := by
      unfold importData
      rw [publish_connections, recordHistory_connections]
      rfl
    rcases mem_allIds.mp hi with h1 | h2 | h3
    · unfold nodeIds at h1
      rw [hnodes] at h1
      obtain ⟨n, hn, hid⟩ := List.mem_map.mp h1
      have := (hb.1 n hn).1
      rw [hid] at this
      omega
    · rw [hnodes] at h2
      obtain ⟨n, hn, hin⟩ := List.mem_flatMap.mp h2
      obtain ⟨e, he, hid⟩ := List.mem_map.mp hin
      have := (hb.1 n hn).2 e he
      rw [hid] at this
      omega
    · unfold connIds at h3
      rw [hconns] at h3
      obtain ⟨c, hc, hid⟩ := List.mem_map.mp h3
      have := hb.2 c hc
      rw [hid] at this
      omega
  have hnext : (importData (exportData s) s).nextId = maxIdOf (exportData s) + 1 := by
    unfold importData
    rw [publish_nextId, recordHistory_nextId]
  refine ⟨?_, ?_, hnext, ?_, ?_, ?_⟩
  · unfold importData
    rw [publish_nodes, recordHistory_nodes]
    rfl
  · unfold importData
    rw [publish_connections, recordHistory_connections]
    rfl
  · unfold importData
    rw [publish_docOf, recordHistory_docOf, publish_history]
    exact recordHistory_of_empty _ h rfl rfl
  · rw [hnext]
    exact hbound
  · intro ops i hig hi
    have hg := (applyOps_ghost ops (importData (exportData s) s)).2 i hig
    have hgen : (importData (exportData s) s).generated = [] := by
      unfold importData
      rw [publish_generated, recordHistory_generated]
    rcases hg with h1 | h1
    · rw [hgen] at h1
      exact absurd h1 (by simp)
    · have := hbound i hi
      rw [hnext] at h1
      omega

/-- C7 witness: importing the export of a concrete three-operation document
keeps its nodes and resets the counter past every imported suffix. -/
theorem importData_roundtrip_witness :
    (applyOps [Op.addNode "start" ⟨300, 150⟩, Op.addNode "message" ⟨600, 150⟩,
        Op.addConnection ⟨"node", 1⟩ ⟨"node", 3⟩]
      initialModel).isRecordingHistory = true ∧
    (importData
        (exportData (applyOps [Op.addNode "start" ⟨300, 150⟩,
          Op.addNode "message" ⟨600, 150⟩,
          Op.addConnection ⟨"node", 1⟩ ⟨"node", 3⟩] initialModel))
        (applyOps [Op.addNode "start" ⟨300, 150⟩,
          Op.addNode "message" ⟨600, 150⟩,
          Op.addConnection ⟨"node", 1⟩ ⟨"node", 3⟩] initialModel)).nextId
      = maxIdOf (exportData (applyOps [Op.addNode "start" ⟨300, 150⟩,
          Op.addNode "message" ⟨600, 150⟩,
          Op.addConnection ⟨"node", 1⟩ ⟨"node", 3⟩] initialModel)) + 1 :=
  ⟨by decide,
   (importData_roundtrip (applyOps [Op.addNode "start" ⟨300, 150⟩,
       Op.addNode "message" ⟨600, 150⟩,
       Op.addConnection ⟨"node", 1⟩ ⟨"node", 3⟩] initialModel)
     (by decide)).2.2.1⟩

/-! ## Undo and redo navigation -/

theorem undo_of_le (s : Model) (h : s.historyIndex ≤ 0) : undo s = (false, s) := by
  unfold undo
  rw [if_pos h]

theorem undo_idx_char (s : Model) (h : 0 ≤ s.historyIndex) :
    (undo s).2.historyIndex = max (s.historyIndex - 1) 0 ∧
    (undo s).2.history = s.history := by
  by_cases hle : s.historyIndex ≤ 0
  · rw [undo_of_le s hle]
    refine ⟨?_, rfl⟩
    show s.historyIndex = max (s.historyIndex - 1) 0
    omega
  · unfold undo
    rw [if_neg hle]
    dsimp only
    cases hg : s.history.get? (s.historyIndex - 1).toNat with
    | some st =>
      refine ⟨?_, rfl⟩
      show s.historyIndex - 1 = max (s.historyIndex - 1) 0
      omega
    | none =>
      refine ⟨?_, rfl⟩
      show s.historyIndex - 1 = max (s.historyIndex - 1) 0
      omega

theorem undoN_idx_char (n : Nat) : ∀ s : Model, 0 ≤ s.historyIndex →
    (undoN n s).historyIndex = max (s.historyIndex - n) 0 ∧
    (undoN n s).history = s.history := by
  induction n with
  | zero =>
    intro s h
    refine ⟨?_, rfl⟩
    show s.historyIndex = max (s.historyIndex - ((0 : Nat) : ℤ)) 0
    push_cast
    omega
  | succ n ih =>
    intro s h
    have hu := undo_idx_char s h
    have hrec := ih (undo s).2 (by rw [hu.1]; omega)
    refine ⟨?_, ?_⟩
    · show (undoN n (undo s).2).historyIndex
        = max (s.historyIndex - ((n + 1 : Nat) : ℤ)) 0
      rw [hrec.1, hu.1]
      push_cast
      omega
    · show (undoN n (undo s).2).history = s.history
      rw [hrec.2, hu.2]

theorem undo_MidInv (H : List Snapshot) (s : Model) (h : MidInv H s) :
    MidInv H (undo s).2 ∧
    (undo s).2.historyIndex = max (s.historyIndex - 1) 0 := by
  obtain ⟨hH, hflag, h0, hlt, hget⟩ := h
  by_cases hle : s.historyIndex ≤ 0
  · rw [undo_of_le s hle]
    refine ⟨⟨hH, hflag, h0, hlt, hget⟩, ?_⟩
    show s.historyIndex = max (s.historyIndex - 1) 0
    omega
  · unfold undo
    rw [if_neg hle]
    dsimp only
    cases hg : s.history.get? (s.historyIndex - 1).toNat with
    | none =>
      exfalso
      have hin : (s.historyIndex - 1).toNat < s.history.length := by
        rw [hH]
        omega
      rw [List.get?_eq_get hin] at hg
      exact Option.noConfusion hg
    | some st =>
      refine ⟨⟨hH, rfl, ?_, ?_, ?_⟩, ?_⟩
      · show (0 : ℤ) ≤ s.historyIndex - 1
        omega
      · show s.historyIndex - 1 < (H.length : ℤ)
        omega
      · show H.get? (s.historyIndex - 1).toNat = some st
        rw [← hH]
        exact hg
      · show s.historyIndex - 1 = max (s.historyIndex - 1) 0
        omega

theorem redo_MidInv (H : List Snapshot) (s : Model) (h : MidInv H s) :
    MidInv H (redo s).2 ∧
    (redo s).2.historyIndex = min (s.historyIndex + 1) ((H.length : ℤ) - 1) := by
  obtain ⟨hH, hflag, h0, hlt, hget⟩ := h
  by_cases hle : (s.history.length : ℤ) - 1 ≤ s.historyIndex
  · have hredo : redo s = (false, s) := by
      unfold redo
      rw [if_pos hle]
    rw [hredo]
    rw [hH] at hle
    refine ⟨⟨hH, hflag, h0, hlt, hget⟩, ?_⟩
    show s.historyIndex = min (s.historyIndex + 1) ((H.length : ℤ) - 1)
    omega
  · rw [hH] at hle
    unfold redo
    rw [if_neg (by rw [hH]; exact hle)]
    dsimp only
    cases hg : s.history.get? (s.historyIndex + 1).toNat with
    | none =>
      exfalso
      have hin : (s.historyIndex + 1).toNat < s.history.length := by
        rw [hH]
        omega
      rw [List.get?_eq_get hin] at hg
      exact Option.noConfusion hg
    | some st =>
      refine ⟨⟨hH, rfl, ?_, ?_, ?_⟩, ?_⟩
      · show (0 : ℤ) ≤ s.historyIndex + 1
        omega
      · show s.historyIndex + 1 < (H.length : ℤ)
        omega
      · show H.get? (s.historyIndex + 1).toNat = some st
        rw [← hH]
        exact hg
      · show s.historyIndex + 1 = min (s.historyIndex + 1) ((H.length : ℤ) - 1)
        omega

theorem undoN_MidInv (H : List Snapshot) (n : Nat) : ∀ s : Model, MidInv H s →
    MidInv H (undoN n s) ∧
    (undoN n s).historyIndex = max (s.historyIndex - n) 0 := by
  induction n with
  | zero =>
    intro s h
    refine ⟨h, ?_⟩
    show s.historyIndex = max (s.historyIndex - ((0 : Nat) : ℤ)) 0
    obtain ⟨_, _, h0, _, _⟩ := h
    push_cast
    omega
  | succ n ih =>
    intro s h
    have hu := undo_MidInv H s h
    have hrec := ih _ hu.1
    refine ⟨hrec.1, ?_⟩
    show (undoN n (undo s).2).historyIndex
      = max (s.historyIndex - ((n + 1 : Nat) : ℤ)) 0
    rw [hrec.2, hu.2]
    obtain ⟨_, _, h0, _, _⟩ := h
    push_cast
    omega

theorem redoN_MidInv (H : List Snapshot) (n : Nat) : ∀ s : Model, MidInv H s →
    MidInv H (redoN n s) ∧
    (redoN n s).historyIndex = min (s.historyIndex + n) ((H.length : ℤ) - 1) := by
  induction n with
  | zero =>
    intro s h
    refine ⟨h, ?_⟩
    show s.historyIndex = min (s.historyIndex + ((0 : Nat) : ℤ)) ((H.length : ℤ) - 1)
    obtain ⟨_, _, _, hlt, _⟩ := h
    push_cast
    omega
  | succ n ih =>
    intro s h
    have hr := redo_MidInv H s h
    have hrec := ih _ hr.1
    refine ⟨hrec.1, ?_⟩
    show (redoN n (redo s).2).historyIndex
      = min (s.historyIndex + ((n + 1 : Nat) : ℤ)) ((H.length : ℤ) - 1)
    rw [hrec.2, hr.2]
    obtain ⟨_, _, h0, hlt, _⟩ := h
    push_cast
    omega

theorem roundtrip_of_Inv (s : Model) (h : Inv s) (n : Nat) :
    docOf (redoN n (undoN n s)) = docOf s := by
  obtain ⟨⟨hflag, hidx, hlen⟩, hlast⟩ := h
  by_cases hnil : s.history = []
  · have hidx2 : s.historyIndex = -1 := by
      rw [hidx, hnil]
      rfl
    have hu : ∀ k, undoN k s = s := by
      intro k
      induction k with
      | zero => rfl
      | succ k ih =>
        show undoN k (undo s).2 = s
        rw [undo_of_le s (by omega)]
        exact ih
    have hredo : redo s = (false, s) := by
      unfold redo
      rw [if_pos (by rw [hnil]; simp; omega)]
    have hr : ∀ k, redoN k s = s := by
      intro k
      induction k with
      | zero => rfl
      | succ k ih =>
        show redoN k (redo s).2 = s
        rw [hredo]
        exact ih
    rw [hu n, hr n]
  · have hlen1 : 1 ≤ s.history.length := by
      cases hh : s.history with
      | nil => exact absurd hh hnil
      | cons a l => simp [hh]
    have hgs : s.history.get? ((s.history.length : ℤ) - 1).toNat = some (docOf s) := by
      have hl := hlast hnil
      rw [List.getLast?_eq_get?] at hl
      have : (((s.history.length : ℤ) - 1)).toNat = s.history.length - 1 := by omega
      rw [this]
      exact hl
    have hmid : MidInv s.history s := by
      refine ⟨rfl, hflag, by omega, by omega, ?_⟩
      rw [hidx]
      exact hgs
    have hu := undoN_MidInv s.history n s hmid
    have hr := redoN_MidInv s.history n _ hu.1
    have hfin : (redoN n (undoN n s)).historyIndex = (s.history.length : ℤ) - 1 := by
      rw [hr.2, hu.2, hidx]
      omega
    obtain ⟨hH, _, _, _, hget⟩ := hr.1
    rw [hfin] at hget
    rw [hgs] at hget
    exact (Option.some_inj.mp hget).symm

/-! ## C5: undo/redo round trip -/

/-- C5 counterexample: the mutation sequence addNode, addNode,
setSelectedNode leaves a document whose selection is not reproduced by three
undos followed by three redos, because the plain selection setters mutate the
document without recording history. -/
theorem undo_redo_roundtrip_cex :
    docOf (redoN 3 (undoN 3 (applyOps
        [Op.addNode "start" ⟨0, 0⟩, Op.addNode "message" ⟨1, 1⟩,
         Op.setSelectedNode (some ⟨"node", 1⟩)] initialModel)))
      ≠ docOf (applyOps
        [Op.addNode "start" ⟨0, 0⟩, Op.addNode "message" ⟨1, 1⟩,
         Op.setSelectedNode (some ⟨"node", 1⟩)] initialModel) := by
  decide

/-- C5 amended: for every sequence of history-recording mutating operations
(addNode, updateNode, removeNode, addElement, updateElement, removeElement,
addConnection, removeConnection, toggleNodeSelection — every modelled
mutation except the plain selection setters) applied to a fresh document, n
undo calls followed by n redo calls reproduce a document, nodes, connections
and selection, deep-equal to the state after the original operations, for
every n. -/
theorem undo_redo_roundtrip (ops : List Op)
    (h : ∀ o ∈ ops, isRecordingOp o = true) (n : Nat) :
    docOf (redoN n (undoN n (applyOps ops initialModel)))
      = docOf (applyOps ops initialModel) :=
  roundtrip_of_Inv _ (applyOps_Inv ops initialModel Inv_initial h) n

/-- C5 witness: a concrete four-operation editing session round-trips through
four undos and four redos. -/
theorem undo_redo_roundtrip_witness :
    (∀ o ∈ [Op.addNode "start" ⟨300, 150⟩, Op.addNode "message" ⟨600, 150⟩,
            Op.addConnection ⟨"node", 1⟩ ⟨"node", 3⟩, Op.removeNode ⟨"node", 1⟩],
        isRecordingOp o = true) ∧
    docOf (redoN 4 (undoN 4 (applyOps
        [Op.addNode "start" ⟨300, 150⟩, Op.addNode "message" ⟨600, 150⟩,
         Op.addConnection ⟨"node", 1⟩ ⟨"node", 3⟩, Op.removeNode ⟨"node", 1⟩]
        initialModel)))
      = docOf (applyOps
        [Op.addNode "start" ⟨300, 150⟩, Op.addNode "message" ⟨600, 150⟩,
         Op.addConnection ⟨"node", 1⟩ ⟨"node", 3⟩, Op.removeNode ⟨"node", 1⟩]
        initialModel) :=
  ⟨by decide,
   undo_redo_roundtrip
     [Op.addNode "start" ⟨300, 150⟩, Op.addNode "message" ⟨600, 150⟩,
      Op.addConnection ⟨"node", 1⟩ ⟨"node", 3⟩, Op.removeNode ⟨"node", 1⟩]
     (by decide) 4⟩

/-! ## C6: the history stays bounded and undo never underflows -/

/-- C6: after any operation sequence with more than 50 recorded snapshots the
history length is capped at 50, the cursor is the valid last index, repeated
undo keeps the cursor at 0 or above, and the fiftieth undo call returns false
without underflow. -/
theorem history_bound (ops : List Op)
    (h : 50 < (applyOps ops initialModel).recordCount) :
    (applyOps ops initialModel).history.length ≤ 50 ∧
    (applyOps ops initialModel).historyIndex
      = ((applyOps ops initialModel).history.length : ℤ) - 1 ∧
    0 ≤ (applyOps ops initialModel).historyIndex ∧
    (∀ k, 0 ≤ (undoN k (applyOps ops initialModel)).historyIndex) ∧
    (undo (undoN 49 (applyOps ops initialModel))).1 = false := by
  have hp := applyOps_PreInv ops initialModel Inv_initial.1
  obtain ⟨hflag, hidx, hlen⟩ := hp
  have hlen50 : (applyOps ops initialModel).history.length = 50 := by omega
  have hidx49 : (applyOps ops initialModel).historyIndex = 49 := by
    rw [hidx, hlen50]
    rfl
  refine ⟨by omega, hidx, by omega, ?_, ?_⟩
  · intro k
    have hk := undoN_idx_char k (applyOps ops initialModel) (by omega)
    rw [hk.1]
    omega
  · have h49 := undoN_idx_char 49 (applyOps ops initialModel) (by omega)
    have hzero : (undoN 49 (applyOps ops initialModel)).historyIndex = 0 := by
      rw [h49.1, hidx49]
      push_cast
      omega
    rw [undo_of_le _ (by omega)]

set_option maxRecDepth 40000 in
/-- C6 witness: fifty-one recorded toggle mutations cap the history at 50 and
the fiftieth undo returns false. -/
theorem history_bound_witness :
    50 < (applyOps (List.replicate 51 (Op.toggleNodeSelection none false))
        initialModel).recordCount ∧
    (applyOps (List.replicate 51 (Op.toggleNodeSelection none false))
        initialModel).history.length ≤ 50 ∧
    (undo (undoN 49 (applyOps (List.replicate 51 (Op.toggleNodeSelection none false))
        initialModel))).1 = false :=
  ⟨by decide,
   (history_bound (List.replicate 51 (Op.toggleNodeSelection none false)) (by decide)).1,
   (history_bound (List.replicate 51 (Op.toggleNodeSelection none false)) (by decide)).2.2.2.2⟩

/-! ## C10: setSelectedNode(null) leaves the null id inside the set -/

/-- C10: clearing the selection through setSelectedNode(null) does not leave
selectedNodeIds empty: the set becomes the one-element set containing null,
and selectedNodeId becomes null. -/
theorem setSelectedNode_null_keeps_null_in_set (s : Model) :
    (setSelectedNode none s).selectedNodeIds = [(none : Option Id)] ∧
    (setSelectedNode none s).selectedNodeId = none := by
  simp [setSelectedNode, publish, setAdd]

/-! ## C1: selection exclusivity fails on the node-id set -/

/-- C1 counterexample: from a reachable state whose selectedNodeIds is
nonempty, setSelectedConnection leaves the set nonempty; and from a reachable
state with a selected connection, setSelectedNode leaves selectedConnectionId
non-null. -/
theorem selection_exclusivity_cex :
    ((setSelectedConnection (some ⟨"conn", 9⟩)
        (applyOps [Op.addNode "start" ⟨0, 0⟩,
                   Op.toggleNodeSelection (some ⟨"node", 1⟩) false]
          initialModel)).selectedNodeIds ≠ []) ∧
    ((setSelectedNode (some ⟨"node", 1⟩)
        (applyOps [Op.addNode "start" ⟨0, 0⟩, Op.addNode "message" ⟨1, 1⟩,
                   Op.addConnection ⟨"node", 1⟩ ⟨"node", 3⟩,
                   Op.setSelectedConnection (some ⟨"conn", 5⟩)]
          initialModel)).selectedConnectionId ≠ none) := by
  decide

/-- C1 amended: setSelectedConnection(c) nulls selectedNodeId and
selectedElementId and stores c, but leaves the selectedNodeIds set untouched;
setSelectedNode(n) replaces the set by the singleton of n and stores n, but
leaves selectedConnectionId and selectedElementId untouched. -/
theorem selection_setters_partial_clear (s : Model) (c n : Option Id) :
    ((setSelectedConnection c s).selectedNodeId = none ∧
     (setSelectedConnection c s).selectedElementId = none ∧
     (setSelectedConnection c s).selectedConnectionId = c ∧
     (setSelectedConnection c s).selectedNodeIds = s.selectedNodeIds) ∧
    ((setSelectedNode n s).selectedNodeIds = [n] ∧
     (setSelectedNode n s).selectedNodeId = n ∧
     (setSelectedNode n s).selectedConnectionId = s.selectedConnectionId ∧
     (setSelectedNode n s).selectedElementId = s.selectedElementId) := by
  simp [setSelectedConnection, setSelectedNode, publish, setAdd]

/-! ## C2: addNode validates nothing -/

/-- C2 counterexample: with the unknown type bogus, addNode is not a no-op:
it adds a node, records a history entry and publishes onNodeAdded. -/
theorem addNode_unknown_type_not_noop :
    "bogus" ∉ NODE_TYPES ∧
    (addNode "bogus" ⟨0, 0⟩ initialModel).2.nodes.length = 1 ∧
    (addNode "bogus" ⟨0, 0⟩ initialModel).2.history.length = 1 ∧
    (addNode "bogus" ⟨0, 0⟩ initialModel).2.events
      = [Event.nodeAdded ⟨"node", 1⟩] := by
  decide

/-- C2 amended: addNode never validates its type. For every type string and
position it appends one node, titled through TYPE_NAMES with the fallback
title for unknown types, seeded with one default text element, records one
history entry while recording is on, publishes onNodeAdded, and returns the
fresh node id. -/
theorem addNode_never_rejects (type : String) (position : Pos) (s : Model) :
    (addNode type position s).1 = ⟨"node", s.nextId⟩ ∧
    (addNode type position s).2.nodes
      = s.nodes ++ [{ id := ⟨"node", s.nextId⟩, type := type, position := position,
                      title := (TYPE_NAMES type).getD "Узел",
                      elements := [{ id := ⟨"element", s.nextId + 1⟩, type := "text",
                                     data := { text := some (if type = "start"
                                       then START_GREETING else DEFAULT_TEXT) } }] }] ∧
    (addNode type position s).2.events
      = s.events ++ [Event.nodeAdded ⟨"node", s.nextId⟩] ∧
    (addNode type position s).2.nextId = s.nextId + 2 ∧
    (addNode type position s).2.recordCount
      = if s.isRecordingHistory then s.recordCount + 1 else s.recordCount := by
  refine ⟨rfl, ?_, ?_, ?_, ?_⟩ <;>
    simp [addNode, generateId, publish, recordHistory_nodes, recordHistory_events,
          recordHistory_nextId, recordHistory_recordCount]

/-! ## C3: addConnection null on missing endpoints, idempotent on duplicates -/

theorem find?_append_of_none {α : Type} (p : α → Bool) (l1 l2 : List α)
    (h : l1.find? p = none) : (l1 ++ l2).find? p = l2.find? p := by
  induction l1 with
  | nil => rfl
  | cons a l ih =>
    cases hp : p a with
    | true =>
      rw [List.find?_cons_of_pos _ hp] at h
      exact absurd h (by simp)
    | false =>
      rw [List.find?_cons_of_neg _ (by simp [hp])] at h
      rw [List.cons_append, List.find?_cons_of_neg _ (by simp [hp])]
      exact ih h

/-- C3: addConnection returns null and changes nothing when an endpoint node
is missing; returns the existing id and changes nothing (no connection, no
history entry, no event) when the ordered pair is already connected; else
adds exactly one fresh connection, and calling it again returns the same id
and leaves the state unchanged with exactly one (source, target) connection. -/
theorem addConnection_spec (s : Model) (a b : Id) :
    ((getNodeById a s = none ∨ getNodeById b s = none) →
        addConnection a b s = (none, s)) ∧
    (∀ c, s.connections.find?
          (fun c2 => decide (c2.source = a) && decide (c2.target = b)) = some c →
        getNodeById a s ≠ none → getNodeById b s ≠ none →
        addConnection a b s = (some c.id, s)) ∧
    (s.connections.find?
          (fun c2 => decide (c2.source = a) && decide (c2.target = b)) = none →
        getNodeById a s ≠ none → getNodeById b s ≠ none →
        (addConnection a b s).1 = some ⟨"conn", s.nextId⟩ ∧
        (addConnection a b s).2.connections
          = s.connections ++ [{ id := ⟨"conn", s.nextId⟩, source := a, target := b }] ∧
        (addConnection a b s).2.nodes = s.nodes ∧
        (addConnection a b s).2.events
          = s.events ++ [Event.connectionAdded ⟨"conn", s.nextId⟩] ∧
        ((addConnection a b s).2.connections.filter
            (fun c2 => decide (c2.source = a) && decide (c2.target = b))).length = 1 ∧
        addConnection a b (addConnection a b s).2
          = (some ⟨"conn", s.nextId⟩, (addConnection a b s).2)) := by
  refine ⟨?_, ?_, ?_⟩
  · intro h
    have hc : ((getNodeById a s).isNone ∨ (getNodeById b s).isNone) := by
      rcases h with h | h <;> simp [h]
    unfold addConnection
    rw [if_pos hc]
  · intro c hf ha hb
    simp only [addConnection, Option.isNone_iff_eq_none, ha, hb, or_self,
      if_false, hf]
  · intro hf ha hb
    have hbranch : (addConnection a b s).2
        = publish (.connectionAdded ⟨"conn", s.nextId⟩)
            (recordHistory { (generateId "conn" s).2 with
              connections := (generateId "conn" s).2.connections
                ++ [{ id := ⟨"conn", s.nextId⟩, source := a, target := b }] })
        ∧ (addConnection a b s).1 = some ⟨"conn", s.nextId⟩ := by
      constructor <;>
        simp only [addConnection, Option.isNone_iff_eq_none, ha, hb, or_self,
          if_false, hf, generateId]
    have hconns : (addConnection a b s).2.connections
        = s.connections ++ [{ id := ⟨"conn", s.nextId⟩, source := a, target := b }] := by
      rw [hbranch.1]
      simp [publish, recordHistory_connections, generateId]
    have hnodes : (addConnection a b s).2.nodes = s.nodes := by
      rw [hbranch.1]
      simp [publish, recordHistory_nodes, generateId]
    have hcount : ((addConnection a b s).2.connections.filter
        (fun c2 => decide (c2.source = a) && decide (c2.target = b))).length = 1 := by
      rw [hconns, List.filter_append]
      rw [List.filter_eq_nil_iff.mpr ?_]
      · simp
      · intro c2 hc2
        have := List.find?_eq_none.mp hf c2 hc2
        simpa using this
    refine ⟨hbranch.2, hconns, hnodes, ?_, hcount, ?_⟩
    · rw [hbranch.1]
      simp [publish, recordHistory_events, generateId]
    · have hga : getNodeById a (addConnection a b s).2 = getNodeById a s := by
        unfold getNodeById; rw [hnodes]
      have hgb : getNodeById b (addConnection a b s).2 = getNodeById b s := by
        unfold getNodeById; rw [hnodes]
      have hfind2 : (addConnection a b s).2.connections.find?
          (fun c2 => decide (c2.source = a) && decide (c2.target = b))
          = some { id := ⟨"conn", s.nextId⟩, source := a, target := b } := by
        rw [hconns, find?_append_of_none _ _ _ hf]
        simp
      generalize hS : (addConnection a b s).2 = S at hga hgb hfind2 ⊢
      simp only [addConnection, Option.isNone_iff_eq_none, hga, hgb, ha, hb,
        or_self, if_false, hfind2]

/-- C3 witness: on the document with two fresh nodes, adding the connection
node_1 to node_3 creates conn_5 and the repeated call is the identity. -/
theorem addConnection_spec_witness :
    ((applyOps [Op.addNode "start" ⟨0, 0⟩, Op.addNode "message" ⟨1, 1⟩]
        initialModel).connections.find?
          (fun c2 => decide (c2.source = (⟨"node", 1⟩ : Id))
            && decide (c2.target = (⟨"node", 3⟩ : Id))) = none) ∧
    (getNodeById ⟨"node", 1⟩
      (applyOps [Op.addNode "start" ⟨0, 0⟩, Op.addNode "message" ⟨1, 1⟩]
        initialModel) ≠ none) ∧
    (getNodeById ⟨"node", 3⟩
      (applyOps [Op.addNode "start" ⟨0, 0⟩, Op.addNode "message" ⟨1, 1⟩]
        initialModel) ≠ none) ∧
    ((addConnection ⟨"node", 1⟩ ⟨"node", 3⟩
        (applyOps [Op.addNode "start" ⟨0, 0⟩, Op.addNode "message" ⟨1, 1⟩]
          initialModel)).1 = some ⟨"conn", 5⟩) :=
  ⟨by decide, by decide, by decide,
    ((addConnection_spec
        (applyOps [Op.addNode "start" ⟨0, 0⟩, Op.addNode "message" ⟨1, 1⟩]
          initialModel) ⟨"node", 1⟩ ⟨"node", 3⟩).2.2
      (by decide) (by decide) (by decide)).1⟩

/-! ## C8: zoom clamp scenario -/

theorem zoom_scale (cam : Camera) (delta x y : ℚ) :
    (zoom cam delta x y).scale = max SCALE_MIN (min SCALE_MAX (cam.scale + delta)) := by
  by_cases h : max SCALE_MIN (min SCALE_MAX (cam.scale + delta)) = cam.scale
  · simp [zoom, h]
  · simp [zoom, h]

theorem zoom_noop (cam : Camera) (delta x y : ℚ)
    (h : max SCALE_MIN (min SCALE_MAX (cam.scale + delta)) = cam.scale) :
    zoom cam delta x y = cam := by
  simp [zoom, h]

theorem zoomN_scale (x y : ℚ) : ∀ n, (zoomN x y n).scale = scaleIter n
  | 0 => rfl
  | n + 1 => by rw [zoomN, zoom_scale, zoomN_scale x y n]; rfl

theorem scaleIter_nine : scaleIter 9 = 19/10 := by
  norm_num [scaleIter, SCALE_MIN, SCALE_MAX, SCALE_STEP, min_def, max_def]

theorem scaleIter_ten : scaleIter 10 = 2 := by
  norm_num [scaleIter, SCALE_MIN, SCALE_MAX, SCALE_STEP, min_def, max_def]

/-- C8 counterexample: from the default scale 1, nine zoom(+0.1) calls reach
scale 1.9, not the clamped maximum 2, and the tenth call is not a no-op. -/
theorem zoom_nine_calls_cex :
    (zoomN 100 50 9).scale = 19/10 ∧
    (zoomN 100 50 9).scale ≠ SCALE_MAX ∧
    zoom (zoomN 100 50 9) SCALE_STEP 100 50 ≠ zoomN 100 50 9 := by
  have h9 : (zoomN 100 50 9).scale = 19/10 := by rw [zoomN_scale, scaleIter_nine]
  have h10 : (zoom (zoomN 100 50 9) SCALE_STEP 100 50).scale = 2 := by
    have he : zoom (zoomN 100 50 9) SCALE_STEP 100 50 = zoomN 100 50 10 := rfl
    rw [he, zoomN_scale, scaleIter_ten]
  refine ⟨h9, ?_, ?_⟩
  · rw [h9, SCALE_MAX]; norm_num
  · intro heq
    rw [heq, h9] at h10
    norm_num at h10

/-- C8 amended: from the default scale 1.0 with step 0.1, ten zoom calls at a
fixed anchor reach the clamped maximum SCALE_MAX = 2, and the eleventh call
is a no-op leaving camera position and scale unchanged. -/
theorem zoom_clamps_at_ten_calls (x y : ℚ) :
    (zoomN x y 10).scale = SCALE_MAX ∧
    zoom (zoomN x y 10) SCALE_STEP x y = zoomN x y 10 := by
  have h10 : (zoomN x y 10).scale = SCALE_MAX := by
    rw [zoomN_scale, scaleIter_ten, SCALE_MAX]
  refine ⟨h10, zoom_noop _ _ _ _ ?_⟩
  rw [h10]
  norm_num [SCALE_MIN, SCALE_MAX, SCALE_STEP, min_def, max_def]

/-! ## C9: zoom preserves the world point under the anchor -/

/-- C9: whenever the clamped new scale differs from the current one, the
world point under the anchor, screen over scale plus position, is identical
before and after the zoom, exactly over ℚ. -/
theorem zoom_about_point_invariance (cam : Camera) (delta x y : ℚ)
    (h : max SCALE_MIN (min SCALE_MAX (cam.scale + delta)) ≠ cam.scale) :
    x / (zoom cam delta x y).scale + (zoom cam delta x y).position.x
      = x / cam.scale + cam.position.x ∧
    y / (zoom cam delta x y).scale + (zoom cam delta x y).position.y
      = y / cam.scale + cam.position.y := by
  simp only [zoom, if_neg h]
  constructor <;> (dsimp only; ring)

/-- C9 witness at the default camera with delta one half and anchor (3, 7). -/
theorem zoom_about_point_invariance_witness :
    max SCALE_MIN (min SCALE_MAX (defaultCamera.scale + 1/2)) ≠ defaultCamera.scale ∧
    (3 / (zoom defaultCamera (1/2) 3 7).scale + (zoom defaultCamera (1/2) 3 7).position.x
        = 3 / defaultCamera.scale + defaultCamera.position.x ∧
     7 / (zoom defaultCamera (1/2) 3 7).scale + (zoom defaultCamera (1/2) 3 7).position.y
        = 7 / defaultCamera.scale + defaultCamera.position.y) :=
  ⟨by norm_num [defaultCamera, SCALE_MIN, SCALE_MAX, min_def, max_def],
   zoom_about_point_invariance defaultCamera (1/2) 3 7
     (by norm_num [defaultCamera, SCALE_MIN, SCALE_MAX, min_def, max_def])⟩

end BotBuilder
